import Mathlib

/-!
# snapshot-validator: the validation pass of `main.cpp`

A shallow embedding of `src/main.cpp` (the transaction loop, the block loop and
`main`) and of the exception tables of `src/settings.cpp` that the properties
below refer to.

The classes `Transaction`, `BlockHeader` and `Payload` are declared in headers
that are not part of the sources at hand, and `crypto_sign_verify_detached`
belongs to libsodium.  Their digests, identifiers and the signature check are
therefore parameters of the embedding (`Codec`); every theorem holds for all of
them.  Rows of the two result sets are taken as already decoded values.
-/

set_option linter.dupNamespace false

namespace SnapshotValidator

/-! ## Data -/

/-- One `unsigned char`. -/
abbrev Byte := Fin 256

/-- A `std::vector<unsigned char>`, and also the characters of a `std::string`. -/
abbrev Bytes := List Byte

/-- The low byte of a number. -/
def lowByte (n : Nat) : Byte :=
  Fin.ofNat n

/-- The arguments handed to the `Transaction` constructor (main.cpp 157-165); the
pair `assetDataBegin`, `assetDataLength` is kept as the bytes it delimits
(`nullptr`, `0` is the empty list). -/
structure Transaction where
  type : Int
  timestamp : Nat
  senderPublicKey : Bytes
  recipientId : Nat
  amount : Nat
  assetData : Bytes
deriving DecidableEq, Repr

/-- The arguments handed to the `BlockHeader` constructor (main.cpp 244-255). -/
structure BlockHeader where
  version : Nat
  timestamp : Nat
  previousBlock : Nat
  numberOfTransactions : Nat
  totalAmount : Nat
  totalFee : Nat
  reward : Nat
  payloadLength : Nat
  payloadHash : Bytes
  generatorPublicKey : Bytes
deriving DecidableEq, Repr

/-- A row of the query over `trs` (main.cpp 92-117), named after the locals the
loop reads it into.  The three `get<std::string>()` columns are optional. -/
structure TransactionRow where
  dbId : Nat
  dbBockId : Nat
  dbType : Int
  dbTimestamp : Nat
  dbSenderPublicKey : Bytes
  dbRecipientIdString : Option Bytes
  dbAmount : Nat
  dbSignature : Bytes
  dbType0Asset : Bytes
  dbType1Asset : Option Bytes
  dbType2Asset : Option Bytes
deriving DecidableEq, Repr

/-- A row of the query over `blocks` (main.cpp 201-225); `dbPreviousBlock` is read
with `get<std::uint64_t>()` and is optional. -/
structure BlockRow where
  dbId : Nat
  dbVersion : Nat
  dbTimestamp : Nat
  dbHeight : Nat
  dbPreviousBlock : Option Nat
  dbNumberOfTransactions : Nat
  dbTotalAmount : Nat
  dbTotalFee : Nat
  dbReward : Nat
  dbPayloadLength : Nat
  dbPayloadHash : Bytes
  dbGeneratorPublicKey : Bytes
  dbSignature : Bytes
deriving DecidableEq, Repr

/-- The functions of the absent classes and of libsodium that `main` calls:
`Transaction::hash`, `Transaction::id`, `BlockHeader::hash`, `BlockHeader::id`,
`Payload::hash` and `crypto_sign_verify_detached` (signature, message, public
key; `0` means the signature verifies). -/
structure Codec where
  transactionHash : Transaction → Bytes
  transactionId : Transaction → Bytes → Nat
  blockHeaderHash : BlockHeader → Bytes
  blockHeaderId : BlockHeader → Bytes → Nat
  payloadHash : List (Transaction × Bytes) → Bytes
  crypto_sign_verify_detached : Bytes → Bytes → Bytes → Int

/-- Modelled from the spec: `Payload::transactionCount` of the absent `payload.h`
("`count` = number of transactions"). -/
def transactionCount (payload : List (Transaction × Bytes)) : Nat :=
  payload.length

/-- The `std::runtime_error`s thrown inside the `try` block of `main`. -/
inductive Failure where
  | invalidSignature
  | heightMismatch
  | previousBlockMismatch
  | transactionNumberMismatch
  | idMismatch
deriving DecidableEq, Repr

/-- The message of each error, `e.what()`. -/
def Failure.what : Failure → String
  | .invalidSignature => "Invalid signature"
  | .heightMismatch => "Height mismatch"
  | .previousBlockMismatch => "previous block mismatch"
  | .transactionNumberMismatch => "transaction number mismatch"
  | .idMismatch => "id mismatch"

/-- How a piece of the pass ends: it goes on with a state, it throws, or it reads a
value the language leaves undefined (an `unsigned` never written, an empty
`optional` dereferenced). -/
inductive Outcome (σ : Type) where
  | ok (s : σ)
  | thrown (e : Failure)
  | undefined
deriving DecidableEq

/-- The lines written to `std::cout` that are kept: "Transaction not verified"
(main.cpp 191) and "payload hash mismatch" (main.cpp 273). -/
inductive Event where
  | transactionNotVerified (dbId : Nat)
  | payloadHashMismatch
deriving DecidableEq, Repr

/-- The map `blockToTransactions` (main.cpp 86); a key never written holds the
empty vector, which is what `operator[]` creates on first access. -/
abbrev BlockToTransactions := Nat → List (Transaction × Bytes)

/-- The statement `blockToTransactions[k].push_back(v)`. -/
def push_back (m : BlockToTransactions) (k : Nat) (v : Transaction × Bytes) :
    BlockToTransactions :=
  fun b => if b = k then m b ++ [v] else m b

/-! ## The exception tables (settings.cpp) -/

/-- The networks `Settings::Settings` distinguishes. -/
inductive Network where
  | Mainnet
  | Testnet
  | Betanet
deriving DecidableEq, Repr

/-- The members of `Settings::exceptions` that the properties below refer to; the
other tables of settings.cpp are not part of this development.  A set is kept as
the list of its initialisers, in the order of the source. -/
structure Exceptions where
  freeTransactionsBlockId : Nat
  invalidTransactionSignature : List Nat
  invalidAddresses : List String
  payloadHashMismatch : List Nat
deriving DecidableEq, Repr

/-- The members of `Settings` assigned by its constructor. -/
structure Settings where
  genesisBlock : Nat
  negativeBalanceAddress : Nat
  rewardOffset : Nat
  rewardDistance : Nat
  v100Compatible : Bool
  exceptions : Exceptions
deriving DecidableEq, Repr

/-- The constructor `Settings::Settings(Network network)` (settings.cpp 7-285). -/
def Settings.Settings : Network → Settings
  | .Mainnet =>
    { genesisBlock := 13658550407518916215
      negativeBalanceAddress := 6566229458323231555
      rewardOffset := 1451520
      rewardDistance := 3000000
      v100Compatible := false
      exceptions :=
        { freeTransactionsBlockId := 13658550407518916215
          invalidTransactionSignature :=
            [5676385569187187158, 5384302058030309746, 9352922026980330230]
          invalidAddresses :=
            ["88888888888888888888L", "111291927890909688453L", "45552822168800676881L",
             "102578089172695223748L", "158417393714384967784L", "66767893317355082007L",
             "79378290046298522419L", "82995860846885414674L", "146740799137033984447L",
             "27431371898457477021L", "122761091781844220769L", "115512977373004367295L",
             "167592467447211905329L", "24914870879919111310L", "658085858590467165179L",
             "65674106542041665570L", "136650599037076114683L", "62102519165446322358L",
             "36002663650389933742L", "61294630583900822405L", "23339304444138683202L",
             "163791171589406644447L", "114118779455743828526L", "60908836751653554044L",
             "163791171589406644447L", "71066000334892806863L", "26123009066683693893L",
             "113843230015664032748L", "19818282826136809774L", "123396601130007835060L",
             "83930832964751654400L", "90572553121175565083L", "115247857947648814503L",
             "28266953424177981656L", "163709399912253300453L", "101738091419252525441L",
             "527528572855252525252L", "163994490445041326334L", "112878737683770362496L",
             "116244144370251521378L", "48172455550954660929L", "91150325309845111438L",
             "52227326644342588233L", "172751402580997820397L", "134870701874274944551L",
             "33882703892445210381L", "161348288408228933736L", "07280969963593626387L",
             "03708552248146906277L", "000000133700000L", "00000000000000000000L",
             "00000000000000L", "0644846081578550031L", "00702085012798728072L",
             "0670887445780012928L", "0461359979913215833L", "0918279345171678541L",
             "017643479995130895701L", "0605255118852574422L", "011359068057580646659L"]
          payloadHashMismatch :=
            [2324835914503631349, 4697902217642625397, 8978496973888459347, 17067558332600857843,
             14396714627441765038, 8895545467181971142, 15251460520767932788, 12391217984042066071,
             10918179709929665932, 17503372102374390106, 16299254151901317325, 6240247326030267420,
             1409974304137954876, 17925428688616608543, 12870524761881752159, 11124337960677375012,
             16135385503955443116, 15524356244874288151, 11037619976427158801, 13305478121937941034,
             4289996684427206792, 15045649278111090399, 3868747159580661846, 2837020936480112032,
             9912064704912456481, 5318429078106164009, 10965969864719825566, 1728091609855530401,
             11380599274852897909, 15905214266106258760, 13088035161322176442, 1332548098504543132,
             4560552380137081369, 949419498778867546, 6050909935474896393, 17322779671331134338,
             2819656608653946841, 8642896734392050992, 2819670263521618333, 110838895608085721,
             5973733860238868463, 10777997293247427064, 7571736313605719182, 676747092111944213,
             2008892961948134898, 7937493560646705550, 4715062299837042610, 14432800562034667268,
             17442740313087375072, 12832958688013564378, 15299120174069709992, 15124210853377088910,
             10289453077379053142, 4375405149970605729, 2525432370937483187, 15141196187573062254,
             15475784852310402086, 6543807808453317489, 16894219033681021958, 3076891028787755764] } }
  | .Testnet =>
    { genesisBlock := 7807109686729042739
      negativeBalanceAddress := 16009998050678037905
      rewardOffset := 2160
      rewardDistance := 3000000
      v100Compatible := false
      exceptions :=
        { freeTransactionsBlockId := 7807109686729042739
          invalidTransactionSignature :=
            [3274071402587084244, 10403141873189588012, 16896494584440078079]
          invalidAddresses :=
            ["19961131544040416558L", "000123L"]
          payloadHashMismatch :=
            [2748170801018258119, 7394590590101043180] } }
  | .Betanet =>
    { genesisBlock := 12584524832111619342
      negativeBalanceAddress := 9594788837974552645
      rewardOffset := 2160
      rewardDistance := 3000000
      v100Compatible := true
      exceptions :=
        { freeTransactionsBlockId := 12584524832111619342
          invalidTransactionSignature := []
          invalidAddresses := []
          payloadHashMismatch := [] } }

/-! ## Reading the recipient (main.cpp 143-150) -/

/-- The C locale's `isspace`. -/
def isSpace (c : Byte) : Bool :=
  c.val == 32 || (9 ≤ c.val && c.val ≤ 13)

/-- The characters 0 to 9. -/
def isDigit (c : Byte) : Bool :=
  48 ≤ c.val && c.val ≤ 57

/-- The number a run of digit characters accumulates to, most significant first. -/
def digitsValue (ds : Bytes) : Nat :=
  ds.foldl (fun acc c => 10 * acc + (c.val - 48)) 0

/-- The extraction `iss >> recipientId` into a `std::uint64_t`, on the characters of
the stream.  Leading white space is skipped; at end of input the sentry fails and
the variable is not written (`none`).  Otherwise an optional sign and the longest
run of digits are read: no digit stores 0, a value above 2^64 - 1 stores
2^64 - 1, a leading minus negates modulo 2^64. -/
def extractUInt64 (s : Bytes) : Option Nat :=
  match s.dropWhile isSpace with
  | [] => none
  | c :: cs =>
    let negative := c.val == 45
    let body := if c.val == 45 || c.val == 43 then cs else c :: cs
    let ds := body.takeWhile isDigit
    if ds.isEmpty then some 0
    else if 2 ^ 64 ≤ digitsValue ds then some (2 ^ 64 - 1)
    else if negative then some ((2 ^ 64 - digitsValue ds) % 2 ^ 64)
    else some (digitsValue ds)

/-- The value of the local `recipientId` after main.cpp 143-150: `0` for an absent
column, otherwise what is extracted from `substr(0, size() - 1)`, the string
without its last character (for the empty string `size() - 1` wraps and `substr`
returns the whole, empty, string).  The result is `none` when the variable is
left unwritten. -/
def recipientIdOf (dbRecipientIdString : Option Bytes) : Option Nat :=
  match dbRecipientIdString with
  | some s => extractUInt64 (s.take (s.length - 1))
  | none => some 0

/-- The bytes delimited by `assetDataBegin` and `assetDataLength` after the
`switch` of main.cpp 123-142. -/
def assetDataOf (row : TransactionRow) : Bytes :=
  if row.dbType = 0 then row.dbType0Asset
  else if row.dbType = 1 then row.dbType1Asset.getD []
  else if row.dbType = 2 then row.dbType2Asset.getD []
  else []

/-! ## The transaction loop (main.cpp 104-193) -/

/-- The object `t` built at main.cpp 157-165, where the local `recipientId` holds a
value. -/
def transactionOf (row : TransactionRow) : Option Transaction :=
  match recipientIdOf row.dbRecipientIdString with
  | none => none
  | some recipientId =>
    some
      { type := row.dbType
        timestamp := row.dbTimestamp
        senderPublicKey := row.dbSenderPublicKey
        recipientId := recipientId
        amount := row.dbAmount
        assetData := assetDataOf row }

/-- The body of the loop over the transaction rows.  The call `t.id(signature)` of
main.cpp 170 is left out: its result is used only in commented-out code. -/
def transactionStep (cx : Codec) (blockToTransactions : BlockToTransactions)
    (row : TransactionRow) : List Event × Outcome BlockToTransactions :=
  match transactionOf row with
  | none => ([], .undefined)
  | some t =>
    let blockToTransactions := push_back blockToTransactions row.dbBockId (t, row.dbSignature)
    if row.dbType = 0 ∨ (row.dbType = 2 ∧ row.dbTimestamp ≠ 0) then
      if cx.crypto_sign_verify_detached row.dbSignature (cx.transactionHash t)
          row.dbSenderPublicKey ≠ 0 then
        ([], .thrown .invalidSignature)
      else
        ([], .ok blockToTransactions)
    else
      ([.transactionNotVerified row.dbId], .ok blockToTransactions)

/-- The loop over the transaction rows, in the order of the result set. -/
def transactionLoop (cx : Codec) :
    BlockToTransactions → List TransactionRow → List Event × Outcome BlockToTransactions
  | m, [] => ([], .ok m)
  | m, row :: rest =>
    match transactionStep cx m row with
    | (out, .ok m') => (out ++ (transactionLoop cx m' rest).1, (transactionLoop cx m' rest).2)
    | (out, .thrown e) => (out, .thrown e)
    | (out, .undefined) => (out, .undefined)

/-! ## The block loop (main.cpp 209-282) -/

/-- The header built at main.cpp 244-255. -/
def headerOf (row : BlockRow) : BlockHeader :=
  { version := row.dbVersion
    timestamp := row.dbTimestamp
    previousBlock := row.dbPreviousBlock.getD 0
    numberOfTransactions := row.dbNumberOfTransactions
    totalAmount := row.dbTotalAmount
    totalFee := row.dbTotalFee
    reward := row.dbReward
    payloadLength := row.dbPayloadLength
    payloadHash := row.dbPayloadHash
    generatorPublicKey := row.dbGeneratorPublicKey }

/-- The part of the loop body after the two assignments to `lastHeight` and
`lastBlockId` (main.cpp 244-279): signature, transaction count, payload hash,
identifier. -/
def blockChecks (cx : Codec) (blockToTransactions : BlockToTransactions)
    (row : BlockRow) : List Event × Outcome Unit :=
  let bh := headerOf row
  if cx.crypto_sign_verify_detached row.dbSignature (cx.blockHeaderHash bh)
      row.dbGeneratorPublicKey ≠ 0 then
    ([], .thrown .invalidSignature)
  else
    let payload := blockToTransactions row.dbId
    if transactionCount payload ≠ row.dbNumberOfTransactions then
      ([], .thrown .transactionNumberMismatch)
    else
      let out : List Event :=
        if row.dbPayloadHash ≠ cx.payloadHash payload then [.payloadHashMismatch] else []
      if cx.blockHeaderId bh row.dbSignature ≠ row.dbId then
        (out, .thrown .idMismatch)
      else
        (out, .ok ())

/-- The body of the loop over the block rows; the state is the pair `lastHeight`,
`lastBlockId`, both `std::uint64_t`.  Dereferencing an empty `dbPreviousBlock`
(main.cpp 237) is undefined. -/
def blockStep (cx : Codec) (blockToTransactions : BlockToTransactions)
    (st : Nat × Nat) (row : BlockRow) : List Event × Outcome (Nat × Nat) :=
  if row.dbHeight ≠ (st.1 + 1) % 2 ^ 64 then
    ([], .thrown .heightMismatch)
  else
    let linkage : Outcome Unit :=
      if row.dbHeight ≠ 1 then
        match row.dbPreviousBlock with
        | none => .undefined
        | some previousBlock =>
          if previousBlock ≠ st.2 then .thrown .previousBlockMismatch else .ok ()
      else .ok ()
    match linkage with
    | .thrown e => ([], .thrown e)
    | .undefined => ([], .undefined)
    | .ok _ =>
      match blockChecks cx blockToTransactions row with
      | (out, .ok _) => (out, .ok (row.dbHeight, row.dbId))
      | (out, .thrown e) => (out, .thrown e)
      | (out, .undefined) => (out, .undefined)

/-- The loop over the block rows, in the order of the result set. -/
def blockLoop (cx : Codec) (blockToTransactions : BlockToTransactions) :
    Nat × Nat → List BlockRow → List Event × Outcome (Nat × Nat)
  | st, [] => ([], .ok st)
  | st, row :: rest =>
    match blockStep cx blockToTransactions st row with
    | (out, .ok st') =>
      (out ++ (blockLoop cx blockToTransactions st' rest).1,
        (blockLoop cx blockToTransactions st' rest).2)
    | (out, .thrown e) => (out, .thrown e)
    | (out, .undefined) => (out, .undefined)

/-! ## `main` -/

/-- The outcome of a loop without its final state. -/
def Outcome.discard {σ : Type} : Outcome σ → Outcome Unit
  | .ok _ => .ok ()
  | .thrown e => .thrown e
  | .undefined => .undefined

/-- The `try` block of `main`: the transaction loop from the empty map, then the
block loop from `lastHeight = 0`, `lastBlockId = 0`. -/
def run (cx : Codec) (trs : List TransactionRow) (blocks : List BlockRow) :
    List Event × Outcome Unit :=
  match transactionLoop cx (fun _ => []) trs with
  | (out, .ok m) =>
    (out ++ (blockLoop cx m (0, 0) blocks).1, (blockLoop cx m (0, 0) blocks).2.discard)
  | (out, .thrown e) => (out, .thrown e)
  | (out, .undefined) => (out, .undefined)

/-- The exit status of `main`, once libsodium is initialised and the two queries
have delivered their rows: 0 when the `try` block ends, 1 when an exception is
caught; nothing is said where the behaviour is undefined. -/
def main (cx : Codec) (trs : List TransactionRow) (blocks : List BlockRow) : Option Int :=
  match (run cx trs blocks).2 with
  | .ok _ => some 0
  | .thrown _ => some 1
  | .undefined => none

/-! ## Hexadecimal text (main.cpp 13-32) -/

/-- The height of the block processed last among `pre`, 0 when there is none: the
value of `lastHeight` the next row is compared with. -/
def heightBefore (pre : List BlockRow) : Nat :=
  (pre.getLast?.map (fun P => P.dbHeight)).getD 0

/-- The stored id of the block processed last among `pre`, 0 when there is none: the
value of `lastBlockId` the next row is compared with. -/
def idBefore (pre : List BlockRow) : Nat :=
  (pre.getLast?.map (fun P => P.dbId)).getD 0

/-- The transaction rows grouped under a block id, in the order they were read. -/
def rowsOfBlock (trs : List TransactionRow) (blockId : Nat) : List TransactionRow :=
  trs.filter (fun row => row.dbBockId = blockId)

/-- The pair pushed into `blockToTransactions` for a transaction row. -/
def entryOf (row : TransactionRow) : Option (Transaction × Bytes) :=
  (transactionOf row).map (fun t => (t, row.dbSignature))

/-- The signature of a transaction row verifies over the hash of the transaction
built from it, with its sender public key. -/
def transactionSignatureVerifies (cx : Codec) (row : TransactionRow) : Prop :=
  match transactionOf row with
  | none => False
  | some t =>
    cx.crypto_sign_verify_detached row.dbSignature (cx.transactionHash t)
      row.dbSenderPublicKey = 0

instance (cx : Codec) (row : TransactionRow) :
    Decidable (transactionSignatureVerifies cx row) :=
  match h : transactionOf row with
  | none => isFalse (by simp [transactionSignatureVerifies, h])
  | some t =>
    decidable_of_iff
      (cx.crypto_sign_verify_detached row.dbSignature (cx.transactionHash t)
        row.dbSenderPublicKey = 0)
      (by simp [transactionSignatureVerifies, h])

/-- The signature of a block row verifies over the hash of its header, with its
generator public key. -/
def blockSignatureVerifies (cx : Codec) (row : BlockRow) : Prop :=
  cx.crypto_sign_verify_detached row.dbSignature (cx.blockHeaderHash (headerOf row))
    row.dbGeneratorPublicKey = 0

instance (cx : Codec) (row : BlockRow) : Decidable (blockSignatureVerifies cx row) :=
  inferInstanceAs (Decidable (_ = _))

/-- The characters of `ds` are decimal digits, at least one, and `n` is the number
they write in base ten. -/
def denotes (ds : Bytes) (n : Nat) : Prop :=
  ds ≠ [] ∧ (∀ c ∈ ds, isDigit c = true) ∧
    Nat.ofDigits 10 (ds.reverse.map (fun c => c.val - 48)) = n

/-- The characters of a string literal of the source, all of them ASCII. -/
def charsOf (s : String) : Bytes :=
  s.toList.map (fun c => lowByte c.toNat)

/-- An address that no 64-bit recipient identifier writes: it ends in the character
`L`, and the characters before it are decimal digits that either begin with a `0`
that another digit follows, or write a number above 2^64 - 1. -/
def unrepresentable (address : Bytes) : Prop :=
  ∃ ds n, address = ds ++ [76] ∧ denotes ds n ∧
    ((∃ d rest, ds = 48 :: d :: rest) ∨ 2 ^ 64 - 1 < n)

/-- A test for `unrepresentable` that can be run on the tables. -/
def unrepresentableCheck (address : Bytes) : Bool :=
  address.getLast? == some 76 && !address.dropLast.isEmpty &&
    address.dropLast.all isDigit &&
    ((address.dropLast.head? == some 48 && decide (2 ≤ address.dropLast.length)) ||
      decide (2 ^ 64 - 1 < digitsValue address.dropLast))

/-! ## Concrete rows

A small stand-in for the digests and the signature scheme, and a few rows, on which
the embedding is run. -/

/-- A stand-in codec: a digest lists the low bytes of the numeric fields followed
by the byte fields, an identifier folds digest and signature into 64 bits, a
payload digest lists the low bytes of the amounts, and a signature verifies
exactly when it is the message followed by the public key. -/
def demoCodec : Codec where
  transactionHash t :=
    [lowByte t.type.toNat, lowByte t.timestamp, lowByte t.recipientId, lowByte t.amount]
      ++ t.senderPublicKey ++ t.assetData
  transactionId t sig :=
    (([lowByte t.type.toNat, lowByte t.timestamp, lowByte t.recipientId, lowByte t.amount]
      ++ t.senderPublicKey ++ t.assetData) ++ sig).foldl
      (fun acc b => (31 * acc + b.val) % 2 ^ 64) 0
  blockHeaderHash bh :=
    [lowByte bh.version, lowByte bh.timestamp, lowByte bh.previousBlock,
      lowByte bh.numberOfTransactions, lowByte bh.totalAmount, lowByte bh.totalFee,
      lowByte bh.reward, lowByte bh.payloadLength] ++ bh.payloadHash ++ bh.generatorPublicKey
  blockHeaderId bh sig :=
    (([lowByte bh.version, lowByte bh.timestamp, lowByte bh.previousBlock,
      lowByte bh.numberOfTransactions, lowByte bh.totalAmount, lowByte bh.totalFee,
      lowByte bh.reward, lowByte bh.payloadLength] ++ bh.payloadHash ++ bh.generatorPublicKey)
      ++ sig).foldl (fun acc b => (31 * acc + b.val) % 2 ^ 64) 0
  payloadHash payload :=
    payload.map (fun p => lowByte p.1.amount)
  crypto_sign_verify_detached sig msg pk :=
    if sig = msg ++ pk then 0 else -1

/-- A transfer of block `genesis` with the text "123L" as recipient and a
signature that verifies under `demoCodec`; its id is the first entry of Mainnet's
`invalidTransactionSignature`. -/
def transfer1 : TransactionRow :=
  { dbId := 5676385569187187158
    dbBockId := 15732997307154049159
    dbType := 0
    dbTimestamp := 5
    dbSenderPublicKey := [9]
    dbRecipientIdString := some [49, 50, 51, 76]
    dbAmount := 50
    dbSignature := [0, 5, 123, 50, 9, 9]
    dbType0Asset := []
    dbType1Asset := none
    dbType2Asset := none }

/-- The row `transfer1` with a signature that does not verify under `demoCodec`. -/
def transfer1Forged : TransactionRow :=
  { transfer1 with dbSignature := [0] }

/-- A multisignature registration of block `block2` whose signature does not verify
under `demoCodec`. -/
def multisig2 : TransactionRow :=
  { dbId := 42
    dbBockId := 5925748444299399143
    dbType := 1
    dbTimestamp := 6
    dbSenderPublicKey := [9]
    dbRecipientIdString := none
    dbAmount := 0
    dbSignature := [1]
    dbType0Asset := []
    dbType1Asset := some [43, 97]
    dbType2Asset := none }

/-- A block of height 1 without previous block, declaring one transaction. -/
def genesis : BlockRow :=
  { dbId := 15732997307154049159
    dbVersion := 0
    dbTimestamp := 10
    dbHeight := 1
    dbPreviousBlock := none
    dbNumberOfTransactions := 1
    dbTotalAmount := 0
    dbTotalFee := 0
    dbReward := 0
    dbPayloadLength := 0
    dbPayloadHash := []
    dbGeneratorPublicKey := [7]
    dbSignature := [0, 10, 0, 1, 0, 0, 0, 0, 7, 7] }

/-- A block of height 2 on top of `genesis`, declaring one transaction. -/
def block2 : BlockRow :=
  { dbId := 5925748444299399143
    dbVersion := 0
    dbTimestamp := 20
    dbHeight := 2
    dbPreviousBlock := some 15732997307154049159
    dbNumberOfTransactions := 1
    dbTotalAmount := 0
    dbTotalFee := 0
    dbReward := 0
    dbPayloadLength := 0
    dbPayloadHash := []
    dbGeneratorPublicKey := [7]
    dbSignature := [0, 20, 135, 1, 0, 0, 0, 0, 7, 7] }

/-- A block of height 3 on top of `block2`, declaring no transaction. -/
def block3 : BlockRow :=
  { dbId := 17778947221213230599
    dbVersion := 0
    dbTimestamp := 30
    dbHeight := 3
    dbPreviousBlock := some 5925748444299399143
    dbNumberOfTransactions := 0
    dbTotalAmount := 0
    dbTotalFee := 0
    dbReward := 0
    dbPayloadLength := 0
    dbPayloadHash := []
    dbGeneratorPublicKey := [7]
    dbSignature := [0, 30, 231, 0, 0, 0, 0, 0, 7, 7] }

/-- The block `block3` with its previous block altered to 99, signed and identified
anew under `demoCodec`. -/
def block3Relinked : BlockRow :=
  { block3 with
    dbId := 6511015483433785991
    dbPreviousBlock := some 99
    dbSignature := [0, 30, 99, 0, 0, 0, 0, 0, 7, 7] }

/-- The block `block3` stored under the id 7. -/
def block3Renamed : BlockRow :=
  { block3 with dbId := 7 }

/-- A block of height 2 whose `previousBlock` column is empty, declaring no
transaction, signed and identified under `demoCodec`. -/
def block2Orphan : BlockRow :=
  { dbId := 11006452968542124711
    dbVersion := 0
    dbTimestamp := 20
    dbHeight := 2
    dbPreviousBlock := none
    dbNumberOfTransactions := 0
    dbTotalAmount := 0
    dbTotalFee := 0
    dbReward := 0
    dbPayloadLength := 0
    dbPayloadHash := []
    dbGeneratorPublicKey := [7]
    dbSignature := [0, 20, 0, 0, 0, 0, 0, 0, 7, 7] }

/-- A block of height 1 naming 5 as its previous block, signed and identified under
`demoCodec`. -/
def genesisWithPrevious : BlockRow :=
  { dbId := 4255934045429908935
    dbVersion := 0
    dbTimestamp := 10
    dbHeight := 1
    dbPreviousBlock := some 5
    dbNumberOfTransactions := 0
    dbTotalAmount := 0
    dbTotalFee := 0
    dbReward := 0
    dbPayloadLength := 0
    dbPayloadHash := []
    dbGeneratorPublicKey := [7]
    dbSignature := [0, 10, 5, 0, 0, 0, 0, 0, 7, 7] }


/-! ## The loops, step by step -/

section Loops

variable (cx : Codec) (m : BlockToTransactions)

theorem blockChecks_ok_iff (row : BlockRow) :
    (blockChecks cx m row).2 = .ok () ↔
      blockSignatureVerifies cx row ∧ transactionCount (m row.dbId) = row.dbNumberOfTransactions ∧
        cx.blockHeaderId (headerOf row) row.dbSignature = row.dbId := by
  unfold blockChecks blockSignatureVerifies
  by_cases h1 : cx.crypto_sign_verify_detached row.dbSignature (cx.blockHeaderHash (headerOf row))
      row.dbGeneratorPublicKey = 0
  · by_cases h2 : transactionCount (m row.dbId) = row.dbNumberOfTransactions
    · by_cases h3 : cx.blockHeaderId (headerOf row) row.dbSignature = row.dbId <;>
        simp [h1, h2, h3]
    · simp [h1, h2]
  · simp [h1]

theorem blockStep_ok_iff (st st' : Nat × Nat) (row : BlockRow) :
    (blockStep cx m st row).2 = .ok st' ↔
      row.dbHeight = (st.1 + 1) % 2 ^ 64 ∧
        (row.dbHeight ≠ 1 → row.dbPreviousBlock = some st.2) ∧
        (blockChecks cx m row).2 = .ok () ∧ st' = (row.dbHeight, row.dbId) := by
  unfold blockStep
  generalize (st.1 + 1) % 2 ^ 64 = k
  by_cases h1 : row.dbHeight = k
  · subst h1
    by_cases h2 : row.dbHeight = 1
    · rcases hc : blockChecks cx m row with ⟨out, (u | e | _)⟩ <;>
        simp [h2, hc, eq_comm]
    · rcases hp : row.dbPreviousBlock with _ | p
      · simp [h2]
      · by_cases h3 : p = st.2
        · rcases hc : blockChecks cx m row with ⟨out, (u | e | _)⟩ <;>
            simp [h2, h3, hc, eq_comm]
        · simp [h2, h3]
  · simp [h1]

theorem blockStep_heightMismatch (st : Nat × Nat) (row : BlockRow)
    (h : row.dbHeight ≠ (st.1 + 1) % 2 ^ 64) :
    blockStep cx m st row = ([], .thrown .heightMismatch) := by
  unfold blockStep
  rw [if_pos h]

theorem blockStep_previousBlockMismatch (st : Nat × Nat) (row : BlockRow) (p : Nat)
    (h1 : row.dbHeight = (st.1 + 1) % 2 ^ 64) (h2 : row.dbHeight ≠ 1)
    (hp : row.dbPreviousBlock = some p) (h3 : p ≠ st.2) :
    blockStep cx m st row = ([], .thrown .previousBlockMismatch) := by
  unfold blockStep
  rw [if_neg (not_not.mpr h1)]
  simp [h2, hp, h3]

theorem blockStep_empty_previous (st : Nat × Nat) (row : BlockRow)
    (h1 : row.dbHeight = (st.1 + 1) % 2 ^ 64) (h2 : row.dbHeight ≠ 1)
    (hp : row.dbPreviousBlock = none) :
    blockStep cx m st row = ([], .undefined) := by
  unfold blockStep
  rw [if_neg (not_not.mpr h1)]
  simp [h2, hp]

theorem blockStep_linked (st : Nat × Nat) (row : BlockRow)
    (h1 : row.dbHeight = (st.1 + 1) % 2 ^ 64)
    (h2 : row.dbHeight ≠ 1 → row.dbPreviousBlock = some st.2) :
    blockStep cx m st row =
      match blockChecks cx m row with
      | (out, .ok _) => (out, .ok (row.dbHeight, row.dbId))
      | (out, .thrown e) => (out, .thrown e)
      | (out, .undefined) => (out, .undefined) := by
  unfold blockStep
  rw [if_neg (not_not.mpr h1)]
  by_cases h : row.dbHeight = 1
  · simp [h]
  · simp [h, h2 h]

theorem blockStep_thrown_of_checks (st : Nat × Nat) (row : BlockRow) (e : Failure)
    (h1 : row.dbHeight = (st.1 + 1) % 2 ^ 64)
    (h2 : row.dbHeight ≠ 1 → row.dbPreviousBlock = some st.2)
    (hc : (blockChecks cx m row).2 = .thrown e) :
    (blockStep cx m st row).2 = .thrown e := by
  rw [blockStep_linked cx m st row h1 h2]
  rcases hb : blockChecks cx m row with ⟨out, (u | e' | _)⟩ <;> simp_all

theorem blockChecks_invalidSignature (row : BlockRow) (h : ¬ blockSignatureVerifies cx row) :
    blockChecks cx m row = ([], .thrown .invalidSignature) := by
  unfold blockChecks
  unfold blockSignatureVerifies at h
  simp [h]

theorem blockChecks_transactionNumberMismatch (row : BlockRow)
    (h : blockSignatureVerifies cx row)
    (hn : transactionCount (m row.dbId) ≠ row.dbNumberOfTransactions) :
    blockChecks cx m row = ([], .thrown .transactionNumberMismatch) := by
  unfold blockChecks
  unfold blockSignatureVerifies at h
  simp [h, hn]

theorem blockChecks_after_count (row : BlockRow)
    (h : blockSignatureVerifies cx row)
    (hn : transactionCount (m row.dbId) = row.dbNumberOfTransactions) :
    blockChecks cx m row =
      (if row.dbPayloadHash ≠ cx.payloadHash (m row.dbId) then [Event.payloadHashMismatch]
        else [],
       if cx.blockHeaderId (headerOf row) row.dbSignature ≠ row.dbId then
        .thrown .idMismatch else .ok ()) := by
  unfold blockChecks
  unfold blockSignatureVerifies at h
  by_cases hid : cx.blockHeaderId (headerOf row) row.dbSignature = row.dbId <;>
    simp [h, hn, hid]

theorem blockLoop_cons_thrown (st : Nat × Nat) (row : BlockRow) (rest : List BlockRow)
    (e : Failure) (h : (blockStep cx m st row).2 = .thrown e) :
    blockLoop cx m st (row :: rest) = ((blockStep cx m st row).1, .thrown e) := by
  rcases hs : blockStep cx m st row with ⟨out, (s | e' | _)⟩ <;> simp_all [blockLoop]

theorem blockLoop_cons_ok (st st' : Nat × Nat) (row : BlockRow) (rest : List BlockRow)
    (h : (blockStep cx m st row).2 = .ok st') :
    blockLoop cx m st (row :: rest) =
      ((blockStep cx m st row).1 ++ (blockLoop cx m st' rest).1, (blockLoop cx m st' rest).2) := by
  rcases hs : blockStep cx m st row with ⟨out, (s | e' | _)⟩ <;> simp_all [blockLoop]

theorem blockLoop_cons_ok_iff (st st'' : Nat × Nat) (row : BlockRow) (rest : List BlockRow) :
    (blockLoop cx m st (row :: rest)).2 = .ok st'' ↔
      ∃ st', (blockStep cx m st row).2 = .ok st' ∧ (blockLoop cx m st' rest).2 = .ok st'' := by
  rcases hs : blockStep cx m st row with ⟨out, (s | e' | _)⟩ <;> simp [blockLoop, hs]

theorem blockLoop_append (pre rest : List BlockRow) :
    ∀ st st' : Nat × Nat, (blockLoop cx m st pre).2 = .ok st' →
      blockLoop cx m st (pre ++ rest) =
        ((blockLoop cx m st pre).1 ++ (blockLoop cx m st' rest).1,
          (blockLoop cx m st' rest).2) := by
  induction pre with
  | nil =>
    intro st st' h
    simp [blockLoop] at h
    simp [blockLoop, h]
  | cons row pre ih =>
    intro st st' h
    obtain ⟨s, hs, hrest⟩ := (blockLoop_cons_ok_iff cx m st st' row pre).1 h
    rw [List.cons_append, blockLoop_cons_ok cx m st s row _ hs, ih s st' hrest,
      blockLoop_cons_ok cx m st s row _ hs]
    simp

theorem blockLoop_state (pre : List BlockRow) :
    ∀ st st' : Nat × Nat, (blockLoop cx m st pre).2 = .ok st' →
      st' = ((pre.getLast?.map (fun P => P.dbHeight)).getD st.1,
        (pre.getLast?.map (fun P => P.dbId)).getD st.2) := by
  induction pre with
  | nil =>
    intro st st' h
    simp [blockLoop] at h
    simp [← h]
  | cons row pre ih =>
    intro st st' h
    obtain ⟨s, hs, hrest⟩ := (blockLoop_cons_ok_iff cx m st st' row pre).1 h
    have hs' := ((blockStep_ok_iff cx m st s row).1 hs).2.2.2
    have := ih s st' hrest
    subst hs'
    cases pre with
    | nil => simpa using this
    | cons P pre => simpa [List.getLast?_cons_cons] using this

theorem blockLoop_state_zero (pre : List BlockRow) (st' : Nat × Nat)
    (h : (blockLoop cx m (0, 0) pre).2 = .ok st') :
    st' = (heightBefore pre, idBefore pre) :=
  blockLoop_state cx m pre (0, 0) st' h

theorem transactionStep_ok_iff (m' : BlockToTransactions) (row : TransactionRow) :
    (transactionStep cx m row).2 = .ok m' ↔
      ∃ t, transactionOf row = some t ∧
        ((row.dbType = 0 ∨ (row.dbType = 2 ∧ row.dbTimestamp ≠ 0)) →
          cx.crypto_sign_verify_detached row.dbSignature (cx.transactionHash t)
            row.dbSenderPublicKey = 0) ∧
        m' = push_back m row.dbBockId (t, row.dbSignature) := by
  unfold transactionStep
  rcases ht : transactionOf row with _ | t
  · simp
  · by_cases hv : row.dbType = 0 ∨ (row.dbType = 2 ∧ row.dbTimestamp ≠ 0)
    · by_cases hs : cx.crypto_sign_verify_detached row.dbSignature (cx.transactionHash t)
          row.dbSenderPublicKey = 0
      · simp only [if_pos hv, hs, ne_eq, not_true_eq_false, if_false]
        simp [hv, hs, eq_comm]
      · simp only [if_pos hv, ne_eq, hs, not_false_eq_true, if_true]
        simp [hv, hs]
    · simp only [if_neg hv]
      simp [hv, eq_comm]

theorem transactionStep_invalidSignature (row : TransactionRow) (t : Transaction)
    (ht : transactionOf row = some t)
    (hv : row.dbType = 0 ∨ (row.dbType = 2 ∧ row.dbTimestamp ≠ 0))
    (hs : cx.crypto_sign_verify_detached row.dbSignature (cx.transactionHash t)
      row.dbSenderPublicKey ≠ 0) :
    transactionStep cx m row = ([], .thrown .invalidSignature) := by
  unfold transactionStep
  simp only [ht, if_pos hv, if_pos hs]

theorem transactionStep_notVerified (row : TransactionRow) (t : Transaction)
    (ht : transactionOf row = some t)
    (hv : ¬ (row.dbType = 0 ∨ (row.dbType = 2 ∧ row.dbTimestamp ≠ 0))) :
    transactionStep cx m row =
      ([.transactionNotVerified row.dbId],
        .ok (push_back m row.dbBockId (t, row.dbSignature))) := by
  unfold transactionStep
  simp only [ht, if_neg hv]

theorem transactionLoop_cons_ok_iff (m'' : BlockToTransactions) (row : TransactionRow)
    (rest : List TransactionRow) :
    (transactionLoop cx m (row :: rest)).2 = .ok m'' ↔
      ∃ m', (transactionStep cx m row).2 = .ok m' ∧
        (transactionLoop cx m' rest).2 = .ok m'' := by
  rcases hs : transactionStep cx m row with ⟨out, (s | e' | _)⟩ <;>
    simp [transactionLoop, hs]

theorem transactionLoop_cons_thrown (row : TransactionRow) (rest : List TransactionRow)
    (e : Failure) (h : (transactionStep cx m row).2 = .thrown e) :
    transactionLoop cx m (row :: rest) = ((transactionStep cx m row).1, .thrown e) := by
  rcases hs : transactionStep cx m row with ⟨out, (s | e' | _)⟩ <;>
    simp_all [transactionLoop]

theorem transactionLoop_cons_ok (m' : BlockToTransactions) (row : TransactionRow)
    (rest : List TransactionRow) (h : (transactionStep cx m row).2 = .ok m') :
    transactionLoop cx m (row :: rest) =
      ((transactionStep cx m row).1 ++ (transactionLoop cx m' rest).1,
        (transactionLoop cx m' rest).2) := by
  rcases hs : transactionStep cx m row with ⟨out, (s | e' | _)⟩ <;>
    simp_all [transactionLoop]

end Loops

section TransactionLoop

variable (cx : Codec)

theorem transactionLoop_append (pre rest : List TransactionRow) :
    ∀ m m' : BlockToTransactions, (transactionLoop cx m pre).2 = .ok m' →
      transactionLoop cx m (pre ++ rest) =
        ((transactionLoop cx m pre).1 ++ (transactionLoop cx m' rest).1,
          (transactionLoop cx m' rest).2) := by
  induction pre with
  | nil =>
    intro m m' h
    simp [transactionLoop] at h
    simp [transactionLoop, h]
  | cons row pre ih =>
    intro m m' h
    obtain ⟨s, hs, hrest⟩ := (transactionLoop_cons_ok_iff cx m m' row pre).1 h
    rw [List.cons_append, transactionLoop_cons_ok cx m s row _ hs, ih s m' hrest,
      transactionLoop_cons_ok cx m s row _ hs]
    simp

theorem transactionLoop_map (trs : List TransactionRow) :
    ∀ m m' : BlockToTransactions, (transactionLoop cx m trs).2 = .ok m' →
      ∀ b, m' b = m b ++ (rowsOfBlock trs b).filterMap entryOf := by
  induction trs with
  | nil =>
    intro m m' h b
    simp [transactionLoop] at h
    simp [← h, rowsOfBlock]
  | cons row trs ih =>
    intro m m' h b
    obtain ⟨s, hs, hrest⟩ := (transactionLoop_cons_ok_iff cx m m' row trs).1 h
    obtain ⟨t, ht, -, rfl⟩ := (transactionStep_ok_iff cx m s row).1 hs
    rw [ih _ m' hrest b]
    by_cases hb : row.dbBockId = b
    · simp [rowsOfBlock, List.filter_cons, hb, push_back, entryOf, ht]
    · have hb' : ¬ b = row.dbBockId := fun h => hb h.symm
      simp [rowsOfBlock, List.filter_cons, hb, hb', push_back]

theorem transactionLoop_rows_ok (trs : List TransactionRow) :
    ∀ m m' : BlockToTransactions, (transactionLoop cx m trs).2 = .ok m' →
      ∀ row ∈ trs, ∃ t, transactionOf row = some t ∧
        ((row.dbType = 0 ∨ (row.dbType = 2 ∧ row.dbTimestamp ≠ 0)) →
          cx.crypto_sign_verify_detached row.dbSignature (cx.transactionHash t)
            row.dbSenderPublicKey = 0) := by
  induction trs with
  | nil => intro m m' _ row hrow; simp at hrow
  | cons r trs ih =>
    intro m m' h row hrow
    obtain ⟨s, hs, hrest⟩ := (transactionLoop_cons_ok_iff cx m m' r trs).1 h
    rcases List.mem_cons.1 hrow with rfl | hmem
    · obtain ⟨t, ht, hv, -⟩ := (transactionStep_ok_iff cx m s row).1 hs
      exact ⟨t, ht, hv⟩
    · exact ih s m' hrest row hmem

theorem transactionLoop_ok_of_rows (trs : List TransactionRow) :
    ∀ m : BlockToTransactions,
      (∀ row ∈ trs, ∃ t, transactionOf row = some t ∧
        ((row.dbType = 0 ∨ (row.dbType = 2 ∧ row.dbTimestamp ≠ 0)) →
          cx.crypto_sign_verify_detached row.dbSignature (cx.transactionHash t)
            row.dbSenderPublicKey = 0)) →
      ∃ m', (transactionLoop cx m trs).2 = .ok m' := by
  induction trs with
  | nil => intro m _; exact ⟨m, by simp [transactionLoop]⟩
  | cons r trs ih =>
    intro m h
    obtain ⟨t, ht, hv⟩ := h r (List.mem_cons_self _ _)
    obtain ⟨m', hm'⟩ := ih (push_back m r.dbBockId (t, r.dbSignature))
      (fun row hrow => h row (List.mem_cons_of_mem _ hrow))
    exact ⟨m', (transactionLoop_cons_ok_iff cx m m' r trs).2
      ⟨_, (transactionStep_ok_iff cx m _ r).2 ⟨t, ht, hv, rfl⟩, hm'⟩⟩

theorem transactionLoop_count (trs : List TransactionRow) (m' : BlockToTransactions)
    (h : (transactionLoop cx (fun _ => []) trs).2 = .ok m') (b : Nat) :
    transactionCount (m' b) = (rowsOfBlock trs b).length := by
  have hrows := transactionLoop_rows_ok cx trs _ m' h
  rw [transactionLoop_map cx trs _ m' h b, transactionCount]
  simp only [List.nil_append]
  have : ∀ l : List TransactionRow, (∀ row ∈ l, ∃ t, transactionOf row = some t) →
      (l.filterMap entryOf).length = l.length := by
    intro l
    induction l with
    | nil => simp
    | cons r l ih =>
      intro hl
      obtain ⟨t, ht⟩ := hl r (List.mem_cons_self _ _)
      have := ih (fun row hrow => hl row (List.mem_cons_of_mem _ hrow))
      simp [List.filterMap_cons, entryOf, ht, this]
  apply this
  intro row hrow
  obtain ⟨t, ht, -⟩ := hrows row (List.mem_of_mem_filter hrow)
  exact ⟨t, ht⟩

end TransactionLoop


section Run

variable (cx : Codec)

theorem discard_eq_ok_iff {σ : Type} (o : Outcome σ) :
    o.discard = .ok () ↔ ∃ s, o = .ok s := by
  cases o <;> simp [Outcome.discard]

theorem discard_eq_thrown_iff {σ : Type} (o : Outcome σ) (e : Failure) :
    o.discard = .thrown e ↔ o = .thrown e := by
  cases o <;> simp [Outcome.discard]

theorem run_of_transactions_ok (trs : List TransactionRow) (blocks : List BlockRow)
    (m : BlockToTransactions) (h : (transactionLoop cx (fun _ => []) trs).2 = .ok m) :
    run cx trs blocks =
      ((transactionLoop cx (fun _ => []) trs).1 ++ (blockLoop cx m (0, 0) blocks).1,
        (blockLoop cx m (0, 0) blocks).2.discard) := by
  rcases ht : transactionLoop cx (fun _ => []) trs with ⟨out, (s | e | _)⟩ <;>
    simp_all [run]

theorem run_ok_iff (trs : List TransactionRow) (blocks : List BlockRow) :
    (run cx trs blocks).2 = .ok () ↔
      ∃ m, (transactionLoop cx (fun _ => []) trs).2 = .ok m ∧
        ∃ st, (blockLoop cx m (0, 0) blocks).2 = .ok st := by
  rcases ht : transactionLoop cx (fun _ => []) trs with ⟨out, (s | e | _)⟩
  · simp [run, ht, discard_eq_ok_iff]
  · simp [run, ht]
  · simp [run, ht]

theorem run_ok_state (trs : List TransactionRow) (pre : List BlockRow)
    (h : (run cx trs pre).2 = .ok ()) :
    ∃ m, (transactionLoop cx (fun _ => []) trs).2 = .ok m ∧
      (blockLoop cx m (0, 0) pre).2 = .ok (heightBefore pre, idBefore pre) := by
  obtain ⟨m, hm, st, hst⟩ := (run_ok_iff cx trs pre).1 h
  refine ⟨m, hm, ?_⟩
  rw [hst, blockLoop_state_zero cx m pre st hst]

theorem main_eq_zero_iff (trs : List TransactionRow) (blocks : List BlockRow) :
    main cx trs blocks = some 0 ↔ (run cx trs blocks).2 = .ok () := by
  unfold main
  rcases (run cx trs blocks).2 with u | e | _ <;> simp

theorem main_eq_one_iff (trs : List TransactionRow) (blocks : List BlockRow) :
    main cx trs blocks = some 1 ↔ ∃ e, (run cx trs blocks).2 = .thrown e := by
  unfold main
  rcases (run cx trs blocks).2 with u | e | _ <;> simp

/-- The run over `pre ++ B :: post`, when the rows `pre` were accepted, is decided
at `B` as soon as the step on `B` throws. -/
theorem run_thrown_at (trs : List TransactionRow) (pre post : List BlockRow) (B : BlockRow)
    (m : BlockToTransactions) (e : Failure)
    (hm : (transactionLoop cx (fun _ => []) trs).2 = .ok m)
    (hpre : (blockLoop cx m (0, 0) pre).2 = .ok (heightBefore pre, idBefore pre))
    (hB : (blockStep cx m (heightBefore pre, idBefore pre) B).2 = .thrown e) :
    run cx trs (pre ++ B :: post) =
      ((run cx trs pre).1 ++ (blockStep cx m (heightBefore pre, idBefore pre) B).1,
        .thrown e) := by
  rw [run_of_transactions_ok cx trs _ m hm, run_of_transactions_ok cx trs _ m hm,
    blockLoop_append cx m pre (B :: post) _ _ hpre, blockLoop_cons_thrown cx m _ B post e hB]
  simp [Outcome.discard]

/-- The run over `pre ++ [B]`, when the rows `pre` were accepted and the step on `B`
goes through. -/
theorem run_ok_at (trs : List TransactionRow) (pre : List BlockRow) (B : BlockRow)
    (m : BlockToTransactions) (st : Nat × Nat)
    (hm : (transactionLoop cx (fun _ => []) trs).2 = .ok m)
    (hpre : (blockLoop cx m (0, 0) pre).2 = .ok (heightBefore pre, idBefore pre))
    (hB : (blockStep cx m (heightBefore pre, idBefore pre) B).2 = .ok st) :
    run cx trs (pre ++ [B]) =
      ((run cx trs pre).1 ++ (blockStep cx m (heightBefore pre, idBefore pre) B).1,
        .ok ()) := by
  rw [run_of_transactions_ok cx trs _ m hm, run_of_transactions_ok cx trs _ m hm,
    blockLoop_append cx m pre [B] _ _ hpre, blockLoop_cons_ok cx m _ st B [] hB]
  simp [Outcome.discard, blockLoop]

end Run

section Chain

variable (cx : Codec) (m : BlockToTransactions)

theorem heightBefore_concat (pre : List BlockRow) (P : BlockRow) :
    heightBefore (pre ++ [P]) = P.dbHeight := by
  simp [heightBefore, List.getLast?_concat]

theorem idBefore_concat (pre : List BlockRow) (P : BlockRow) :
    idBefore (pre ++ [P]) = P.dbId := by
  simp [idBefore, List.getLast?_concat]

theorem blockLoop_append_ok_iff (pre rest : List BlockRow) :
    ∀ st st'' : Nat × Nat, (blockLoop cx m st (pre ++ rest)).2 = .ok st'' ↔
      ∃ s, (blockLoop cx m st pre).2 = .ok s ∧ (blockLoop cx m s rest).2 = .ok st'' := by
  induction pre with
  | nil => intro st st''; simp [blockLoop]
  | cons row pre ih =>
    intro st st''
    rw [List.cons_append, blockLoop_cons_ok_iff]
    constructor
    · rintro ⟨s, hs, h⟩
      obtain ⟨s', hs', h'⟩ := (ih s st'').1 h
      exact ⟨s', (blockLoop_cons_ok_iff cx m st s' row pre).2 ⟨s, hs, hs'⟩, h'⟩
    · rintro ⟨s', hs', h'⟩
      obtain ⟨s, hs, h⟩ := (blockLoop_cons_ok_iff cx m st s' row pre).1 hs'
      exact ⟨s, hs, (ih s st'').2 ⟨s', h, h'⟩⟩

theorem blockLoop_heights (bs : List BlockRow) :
    ∀ st st' : Nat × Nat, (blockLoop cx m st bs).2 = .ok st' → st.1 + bs.length < 2 ^ 64 →
      ∀ pre B post, bs = pre ++ B :: post → B.dbHeight = st.1 + pre.length + 1 := by
  induction bs with
  | nil => intro st st' _ _ pre B post h; simp at h
  | cons row bs ih =>
    intro st st' h hlen pre B post hsplit
    obtain ⟨s, hs, hrest⟩ := (blockLoop_cons_ok_iff cx m st st' row bs).1 h
    obtain ⟨hh, -, -, rfl⟩ := (blockStep_ok_iff cx m st s row).1 hs
    simp only [List.length_cons] at hlen
    rw [Nat.mod_eq_of_lt (by omega)] at hh
    cases pre with
    | nil =>
      simp only [List.nil_append, List.cons.injEq] at hsplit
      rw [← hsplit.1]
      simpa using hh
    | cons r pre =>
      simp only [List.cons_append, List.cons.injEq] at hsplit
      have := ih (row.dbHeight, row.dbId) st' hrest (by simp only; omega) pre B post hsplit.2
      simp only [List.length_cons] at this ⊢
      omega

theorem heightBefore_eq_length (pre : List BlockRow) (st : Nat × Nat)
    (h : (blockLoop cx m (0, 0) pre).2 = .ok st) (hlen : pre.length < 2 ^ 64) :
    heightBefore pre = pre.length := by
  rcases List.eq_nil_or_concat pre with rfl | ⟨L, P, rfl⟩
  · simp [heightBefore]
  · rw [List.concat_eq_append] at h hlen ⊢
    rw [heightBefore_concat]
    have := blockLoop_heights cx m (L ++ [P]) (0, 0) st h (by simpa using hlen) L P [] rfl
    simpa using this

theorem run_ok_of_append (trs : List TransactionRow) (pre rest : List BlockRow)
    (h : (run cx trs (pre ++ rest)).2 = .ok ()) : (run cx trs pre).2 = .ok () := by
  obtain ⟨m, hm, st, hst⟩ := (run_ok_iff cx trs _).1 h
  obtain ⟨s, hs, -⟩ := (blockLoop_append_ok_iff cx m pre rest (0, 0) st).1 hst
  exact (run_ok_iff cx trs pre).2 ⟨m, hm, s, hs⟩

/-- What a completed run says about each of its blocks: the step on the block, from
the state its predecessors leave, went through. -/
theorem run_ok_step (trs : List TransactionRow) (pre post : List BlockRow) (B : BlockRow)
    (h : (run cx trs (pre ++ B :: post)).2 = .ok ()) :
    ∃ m, (transactionLoop cx (fun _ => []) trs).2 = .ok m ∧
      (blockLoop cx m (0, 0) pre).2 = .ok (heightBefore pre, idBefore pre) ∧
      (blockStep cx m (heightBefore pre, idBefore pre) B).2 = .ok (B.dbHeight, B.dbId) := by
  obtain ⟨m, hm, st, hst⟩ := (run_ok_iff cx trs _).1 h
  obtain ⟨s, hs, hrest⟩ := (blockLoop_append_ok_iff cx m pre (B :: post) (0, 0) st).1 hst
  obtain ⟨s', hs', -⟩ := (blockLoop_cons_ok_iff cx m s st B post).1 hrest
  have hs0 := blockLoop_state_zero cx m pre s hs
  subst hs0
  have := ((blockStep_ok_iff cx m _ s' B).1 hs').2.2.2
  subst this
  exact ⟨m, hm, hs, hs'⟩

end Chain

section Chain2

variable (cx : Codec)

theorem run_ok_height (trs : List TransactionRow) (pre post : List BlockRow) (B : BlockRow)
    (h : (run cx trs (pre ++ B :: post)).2 = .ok ())
    (hlen : (pre ++ B :: post).length < 2 ^ 64) : B.dbHeight = pre.length + 1 := by
  obtain ⟨m, -, st, hst⟩ := (run_ok_iff cx trs _).1 h
  have := blockLoop_heights cx m _ (0, 0) st hst (by simpa using hlen) pre B post rfl
  simpa using this

theorem run_ok_heightBefore (trs : List TransactionRow) (pre : List BlockRow)
    (h : (run cx trs pre).2 = .ok ()) (hlen : pre.length < 2 ^ 64) :
    heightBefore pre = pre.length := by
  obtain ⟨m, -, st, hst⟩ := (run_ok_iff cx trs _).1 h
  exact heightBefore_eq_length cx m pre st hst hlen

end Chain2

section Checks

variable (cx : Codec)

theorem transactionLoop_thrown (trs : List TransactionRow) :
    ∀ (m : BlockToTransactions) (e : Failure),
      (transactionLoop cx m trs).2 = .thrown e → e = .invalidSignature := by
  induction trs with
  | nil => intro m e h; simp [transactionLoop] at h
  | cons row trs ih =>
    intro m e h
    rcases hs : transactionStep cx m row with ⟨out, (s | e' | _)⟩
    · rw [transactionLoop_cons_ok cx m s row trs (by rw [hs])] at h
      exact ih s e h
    · rw [transactionLoop_cons_thrown cx m row trs e' (by rw [hs])] at h
      have he : e' = e := by simpa using h
      subst he
      unfold transactionStep at hs
      rcases ht : transactionOf row with _ | t
      · simp [ht] at hs
      · simp only [ht] at hs
        split_ifs at hs <;> simp_all
    · simp [transactionLoop, hs] at h

theorem blockChecks_thrown (m : BlockToTransactions) (row : BlockRow) (e : Failure)
    (h : (blockChecks cx m row).2 = .thrown e) :
    e = .invalidSignature ∨ e = .transactionNumberMismatch ∨ e = .idMismatch := by
  unfold blockChecks at h
  simp only at h
  split_ifs at h <;> simp_all

/-- The run over `pre ++ B :: post` when the rows `pre` were accepted, `B` is past
the height and linkage checks, and one of the later checks on `B` throws. -/
theorem run_thrown_of_checks (trs : List TransactionRow) (pre post : List BlockRow)
    (B : BlockRow) (m : BlockToTransactions) (e : Failure)
    (hm : (transactionLoop cx (fun _ => []) trs).2 = .ok m)
    (hpre : (run cx trs pre).2 = .ok ())
    (hh : B.dbHeight = (heightBefore pre + 1) % 2 ^ 64)
    (hl : B.dbHeight ≠ 1 → B.dbPreviousBlock = some (idBefore pre))
    (hc : (blockChecks cx m B).2 = .thrown e) :
    run cx trs (pre ++ B :: post) =
      ((run cx trs pre).1 ++ (blockChecks cx m B).1, .thrown e) := by
  obtain ⟨m', hm', hst⟩ := run_ok_state cx trs _ hpre
  have hmm : m' = m := by
    rw [hm] at hm'
    exact (Outcome.ok.inj hm').symm
  subst hmm
  have hstep := blockStep_linked cx m' (heightBefore pre, idBefore pre) B hh hl
  have hthrown := blockStep_thrown_of_checks cx m' (heightBefore pre, idBefore pre) B e hh hl hc
  rw [run_thrown_at cx trs pre post B m' e hm hst hthrown, hstep]
  rcases hb : blockChecks cx m' B with ⟨out, (u | e' | _)⟩ <;> simp_all

theorem run_cons_cases (trs : List TransactionRow) (B : BlockRow) (post : List BlockRow) :
    (run cx trs (B :: post)).2 = (run cx trs [B]).2 ∨ (run cx trs [B]).2 = .ok () := by
  rcases ht : transactionLoop cx (fun _ => []) trs with ⟨out, (m | e | _)⟩
  · have hm : (transactionLoop cx (fun _ => []) trs).2 = .ok m := by rw [ht]
    rw [run_of_transactions_ok cx trs _ m hm, run_of_transactions_ok cx trs _ m hm]
    rcases hs : blockStep cx m (0, 0) B with ⟨o, (s | e | _)⟩ <;>
      simp [blockLoop, hs, Outcome.discard, -Prod.mk_zero_zero]
  · simp [run, ht]
  · simp [run, ht]

end Checks

section PayloadHash

variable (cx : Codec) (f : List (Transaction × Bytes) → Bytes)

theorem transactionLoop_payloadHash (trs : List TransactionRow) :
    ∀ m : BlockToTransactions,
      transactionLoop { cx with payloadHash := f } m trs = transactionLoop cx m trs := by
  induction trs with
  | nil => intro m; rfl
  | cons row trs ih =>
    intro m
    have hstep : transactionStep { cx with payloadHash := f } m row = transactionStep cx m row :=
      rfl
    simp only [transactionLoop, hstep, ih]

theorem blockChecks_payloadHash (m : BlockToTransactions) (row : BlockRow) :
    (blockChecks { cx with payloadHash := f } m row).2 = (blockChecks cx m row).2 := by
  unfold blockChecks
  simp only
  split_ifs <;> rfl

theorem blockStep_payloadHash (m : BlockToTransactions) (st : Nat × Nat) (row : BlockRow) :
    (blockStep { cx with payloadHash := f } m st row).2 = (blockStep cx m st row).2 := by
  have hc := blockChecks_payloadHash cx f m row
  by_cases h1 : row.dbHeight = (st.1 + 1) % 2 ^ 64
  · by_cases h2 : row.dbHeight ≠ 1 → row.dbPreviousBlock = some st.2
    · rw [blockStep_linked _ m st row h1 h2, blockStep_linked _ m st row h1 h2]
      rcases hb1 : blockChecks { cx with payloadHash := f } m row with ⟨o1, r1⟩
      rcases hb2 : blockChecks cx m row with ⟨o2, r2⟩
      rw [hb1, hb2] at hc
      simp only at hc
      subst hc
      rcases r1 with u | e | _ <;> rfl
    · have hne : row.dbHeight ≠ 1 := fun h => h2 (fun hn => absurd h hn)
      rcases hp : row.dbPreviousBlock with _ | p
      · rw [blockStep_empty_previous _ m st row h1 hne hp,
          blockStep_empty_previous _ m st row h1 hne hp]
      · have hp' : p ≠ st.2 := fun h => h2 (fun _ => by rw [hp, h])
        rw [blockStep_previousBlockMismatch _ m st row p h1 hne hp hp',
          blockStep_previousBlockMismatch _ m st row p h1 hne hp hp']
  · rw [blockStep_heightMismatch _ m st row h1, blockStep_heightMismatch _ m st row h1]

theorem blockLoop_payloadHash (m : BlockToTransactions) (blocks : List BlockRow) :
    ∀ st : Nat × Nat,
      (blockLoop { cx with payloadHash := f } m st blocks).2 = (blockLoop cx m st blocks).2 := by
  induction blocks with
  | nil => intro st; rfl
  | cons row blocks ih =>
    intro st
    have hs := blockStep_payloadHash cx f m st row
    rcases h1 : blockStep { cx with payloadHash := f } m st row with ⟨o1, r1⟩
    rcases h2 : blockStep cx m st row with ⟨o2, r2⟩
    rw [h1, h2] at hs
    simp only at hs
    subst hs
    rcases r1 with s | e | _
    · simp only [blockLoop, h1, h2, ih]
    · simp only [blockLoop, h1, h2]
    · simp only [blockLoop, h1, h2]

theorem run_payloadHash (trs : List TransactionRow) (blocks : List BlockRow) :
    (run { cx with payloadHash := f } trs blocks).2 = (run cx trs blocks).2 := by
  unfold run
  rw [transactionLoop_payloadHash]
  rcases transactionLoop cx (fun _ => []) trs with ⟨out, (m | e | _)⟩
  · simp only [blockLoop_payloadHash]
  · rfl
  · rfl

end PayloadHash

section TransactionRun

variable (cx : Codec)

theorem transactionSignatureVerifies_iff (row : TransactionRow) (t : Transaction)
    (ht : transactionOf row = some t) :
    transactionSignatureVerifies cx row ↔
      cx.crypto_sign_verify_detached row.dbSignature (cx.transactionHash t)
        row.dbSenderPublicKey = 0 := by
  simp [transactionSignatureVerifies, ht]

theorem run_no_blocks (trs : List TransactionRow) (m : BlockToTransactions)
    (hm : (transactionLoop cx (fun _ => []) trs).2 = .ok m) :
    run cx trs [] = ((transactionLoop cx (fun _ => []) trs).1, .ok ()) := by
  rw [run_of_transactions_ok cx trs [] m hm]
  simp [blockLoop, Outcome.discard]

/-- The run when the rows `pre` were accepted and the step on the next row throws. -/
theorem run_transaction_thrown (pre post : List TransactionRow) (row : TransactionRow)
    (blocks : List BlockRow) (m : BlockToTransactions) (e : Failure)
    (hm : (transactionLoop cx (fun _ => []) pre).2 = .ok m)
    (hrow : (transactionStep cx m row).2 = .thrown e) :
    run cx (pre ++ row :: post) blocks =
      ((run cx pre []).1 ++ (transactionStep cx m row).1, .thrown e) := by
  rw [run_no_blocks cx pre m hm]
  unfold run
  rw [transactionLoop_append cx pre (row :: post) _ m hm,
    transactionLoop_cons_thrown cx m row post e hrow]

/-- The run over the transactions alone when the rows `pre` were accepted and the step
on the last row goes through. -/
theorem run_transaction_ok (pre : List TransactionRow) (row : TransactionRow)
    (m m' : BlockToTransactions)
    (hm : (transactionLoop cx (fun _ => []) pre).2 = .ok m)
    (hrow : (transactionStep cx m row).2 = .ok m') :
    run cx (pre ++ [row]) [] = ((run cx pre []).1 ++ (transactionStep cx m row).1, .ok ()) := by
  have hall : (transactionLoop cx (fun _ => []) (pre ++ [row])).2 = .ok m' := by
    rw [transactionLoop_append cx pre [row] _ m hm, transactionLoop_cons_ok cx m m' row [] hrow]
    simp [transactionLoop]
  rw [run_no_blocks cx pre m hm, run_no_blocks cx _ m' hall,
    transactionLoop_append cx pre [row] _ m hm, transactionLoop_cons_ok cx m m' row [] hrow]
  simp [transactionLoop]

theorem run_no_blocks_ok (pre : List TransactionRow) (h : (run cx pre []).2 = .ok ()) :
    ∃ m, (transactionLoop cx (fun _ => []) pre).2 = .ok m := by
  obtain ⟨m, hm, -⟩ := (run_ok_iff cx pre []).1 h
  exact ⟨m, hm⟩

end TransactionRun

section Recipient

theorem digitsValue_concat (ds : Bytes) (c : Byte) :
    digitsValue (ds ++ [c]) = 10 * digitsValue ds + (c.val - 48) := by
  simp [digitsValue, List.foldl_append]

theorem digitsValue_eq_ofDigits (ds : Bytes) :
    digitsValue ds = Nat.ofDigits 10 (ds.reverse.map (fun c => c.val - 48)) := by
  induction ds using List.reverseRecOn with
  | nil => simp [digitsValue]
  | append_singleton ds c ih =>
    rw [digitsValue_concat, ih]
    simp [Nat.ofDigits_cons, Nat.add_comm]

theorem isSpace_of_isDigit (c : Byte) (h : isDigit c = true) : isSpace c = false := by
  simp only [isDigit, Bool.and_eq_true, decide_eq_true_eq] at h
  simp only [isSpace, Bool.or_eq_false_iff, beq_eq_false_iff_ne, ne_eq, Bool.and_eq_false_iff,
    decide_eq_false_iff_not]
  omega

theorem extractUInt64_digits (ds : Bytes) (hne : ds ≠ [])
    (hd : ∀ c ∈ ds, isDigit c = true) (hlt : digitsValue ds < 2 ^ 64) :
    extractUInt64 ds = some (digitsValue ds) := by
  cases ds with
  | nil => exact absurd rfl hne
  | cons d ds =>
    have hdig : isDigit d = true := hd d (List.mem_cons_self _ _)
    have hsp := isSpace_of_isDigit d hdig
    have hd' := hdig
    simp only [isDigit, Bool.and_eq_true, decide_eq_true_eq] at hd'
    have h45 : (d.val == 45) = false := by
      simp only [beq_eq_false_iff_ne, ne_eq]
      omega
    have h43 : (d.val == 43) = false := by
      simp only [beq_eq_false_iff_ne, ne_eq]
      omega
    have htake : (d :: ds).takeWhile isDigit = d :: ds :=
      List.takeWhile_eq_self_iff.2 hd
    unfold extractUInt64
    rw [List.dropWhile_cons_of_neg (by simp [hsp])]
    simp only [h45, h43, Bool.or_self, Bool.false_eq_true, if_false, htake, List.isEmpty_cons]
    rw [if_neg (by omega)]

end Recipient

section Completion

variable (cx : Codec)

/-- The condition under which the step on `B`, after the rows `pre`, goes through. -/
theorem blockLoop_ok_of_chain (m : BlockToTransactions) (blocks : List BlockRow)
    (hlen : blocks.length < 2 ^ 64)
    (hchain : ∀ pre B post, blocks = pre ++ B :: post →
      B.dbHeight = heightBefore pre + 1 ∧
        (B.dbHeight ≠ 1 → B.dbPreviousBlock = some (idBefore pre)) ∧
        (blockChecks cx m B).2 = .ok ()) :
    ∀ pre rest, blocks = pre ++ rest →
      (blockLoop cx m (0, 0) pre).2 = .ok (heightBefore pre, idBefore pre) := by
  intro pre
  induction pre using List.reverseRecOn with
  | nil => intro rest _; simp [blockLoop, heightBefore, idBefore]
  | append_singleton init B ih =>
    intro rest hsplit
    have hsplit' : blocks = init ++ B :: rest := by simpa using hsplit
    have hinit := ih (B :: rest) hsplit'
    obtain ⟨hh, hl, hc⟩ := hchain init B rest hsplit'
    have hlen' : init.length + 1 < 2 ^ 64 := by
      have : blocks.length = init.length + (rest.length + 1) := by
        rw [hsplit']; simp
      omega
    have hb := heightBefore_eq_length cx m init _ hinit (by omega)
    have hstep : (blockStep cx m (heightBefore init, idBefore init) B).2 =
        .ok (B.dbHeight, B.dbId) :=
      (blockStep_ok_iff cx m _ _ B).2
        ⟨by simp only; rw [Nat.mod_eq_of_lt (by omega)]; exact hh, hl, hc, rfl⟩
    rw [blockLoop_append cx m init [B] _ _ hinit, blockLoop_cons_ok cx m _ _ B [] hstep,
      heightBefore_concat, idBefore_concat]
    simp [blockLoop]

end Completion

section Grouping

variable (cx : Codec)

theorem blockChecks_congr (m m' : BlockToTransactions) (B : BlockRow)
    (h : m' B.dbId = m B.dbId) : blockChecks cx m' B = blockChecks cx m B := by
  unfold blockChecks
  rw [h]

theorem filterMap_entryOf_pairs (rows : List TransactionRow) :
    (rows.filterMap entryOf).map (fun p => (some p.1, p.2)) =
      (rows.filter (fun row => (transactionOf row).isSome)).map
        (fun row => (transactionOf row, row.dbSignature)) := by
  induction rows with
  | nil => rfl
  | cons row rows ih =>
    rcases ht : transactionOf row with _ | t
    · simp [List.filterMap_cons, List.filter_cons, entryOf, ht, ih]
    · simp [List.filterMap_cons, List.filter_cons, entryOf, ht, ih]

end Grouping

section Addresses

theorem unrepresentable_of_check (address : Bytes)
    (h : unrepresentableCheck address = true) : unrepresentable address := by
  simp only [unrepresentableCheck, Bool.and_eq_true, Bool.or_eq_true, beq_iff_eq,
    decide_eq_true_eq, Bool.not_eq_true', List.all_eq_true] at h
  obtain ⟨⟨⟨hlast, hne⟩, hdig⟩, hcase⟩ := h
  refine ⟨address.dropLast, digitsValue address.dropLast,
    (List.dropLast_append_getLast? 76 hlast).symm,
    ⟨?_, hdig, (digitsValue_eq_ofDigits _).symm⟩, ?_⟩
  · intro hnil
    rw [hnil] at hne
    simp at hne
  · rcases hcase with ⟨hhead, hlen⟩ | hbig
    · left
      rcases hds : address.dropLast with _ | ⟨z, _ | ⟨d, rest⟩⟩
      · rw [hds] at hlen; simp at hlen
      · rw [hds] at hlen; simp at hlen
      · rw [hds] at hhead
        simp only [List.head?_cons, Option.some.injEq] at hhead
        exact ⟨d, rest, by rw [hhead]⟩
    · right
      exact hbig

theorem invalidAddresses_checked (network : Network) :
    (Settings.Settings network).exceptions.invalidAddresses.all
      (fun s => unrepresentableCheck (charsOf s)) = true := by
  cases network <;> rfl

end Addresses

section Hex

end Hex

section Counting

theorem sum_indicator_of_not_mem (k : Nat) (keys : List Nat) (h : k ∉ keys) :
    (keys.map (fun b => if k = b then 1 else 0)).sum = 0 := by
  induction keys with
  | nil => rfl
  | cons a keys ih =>
    have ha : ¬ k = a := fun e => h (by rw [e]; exact List.mem_cons_self _ _)
    have hk : k ∉ keys := fun hm => h (List.mem_cons_of_mem _ hm)
    simp [ha, ih hk]

theorem sum_indicator_of_mem (k : Nat) (keys : List Nat) (hnd : keys.Nodup)
    (h : k ∈ keys) : (keys.map (fun b => if k = b then 1 else 0)).sum = 1 := by
  induction keys with
  | nil => simp at h
  | cons a keys ih =>
    obtain ⟨ha, hks⟩ := List.nodup_cons.1 hnd
    by_cases e : k = a
    · subst e
      simp [sum_indicator_of_not_mem k keys ha]
    · have hk : k ∈ keys := by
        rcases List.mem_cons.1 h with h1 | h1
        · exact absurd h1 e
        · exact h1
      simp [e, ih hks hk]

theorem sum_rowsOfBlock_length (trs : List TransactionRow) (keys : List Nat)
    (hnd : keys.Nodup) (hall : ∀ row ∈ trs, row.dbBockId ∈ keys) :
    (keys.map (fun b => (rowsOfBlock trs b).length)).sum = trs.length := by
  induction trs with
  | nil => simp [rowsOfBlock]
  | cons row trs ih =>
    have hsplit : ∀ b, (rowsOfBlock (row :: trs) b).length =
        (if row.dbBockId = b then 1 else 0) + (rowsOfBlock trs b).length := by
      intro b
      by_cases hb : row.dbBockId = b
      · simp [rowsOfBlock, List.filter_cons, hb, Nat.add_comm]
      · simp [rowsOfBlock, List.filter_cons, hb]
    simp only [hsplit, List.sum_map_add]
    rw [sum_indicator_of_mem row.dbBockId keys hnd (hall row (List.mem_cons_self _ _)),
      ih (fun r hr => hall r (List.mem_cons_of_mem _ hr)), List.length_cons]
    omega

end Counting

/-! ## The properties -/

/-- The linkage check on a row whose `previousBlock` is present: when the rows up
to `P` were accepted and the next row `B`, of height other than 1 and past the
height check, names a previous block `p` other than the stored id of `P`, the run
throws "previous block mismatch" at `B`, whatever the signature, the transaction
count and the id of `B` are, and nothing is written for `B`.  In a run that
completes (fewer than 2^64 rows) a block after the first whose `previousBlock` is
present names the stored id of its predecessor. -/
theorem present_previous_block_mismatch (cx : Codec) (trs : List TransactionRow)
    (pre post : List BlockRow) (P B : BlockRow) (p : Nat)
    (hlen : (pre ++ P :: B :: post).length < 2 ^ 64) :
    ((run cx trs (pre ++ [P])).2 = .ok () → B.dbHeight ≠ 1 →
        B.dbHeight = (P.dbHeight + 1) % 2 ^ 64 → B.dbPreviousBlock = some p → p ≠ P.dbId →
        run cx trs (pre ++ P :: B :: post) =
          ((run cx trs (pre ++ [P])).1, .thrown .previousBlockMismatch)) ∧
      ((run cx trs (pre ++ P :: B :: post)).2 = .ok () → B.dbPreviousBlock ≠ none →
        B.dbPreviousBlock = some P.dbId) := by
  have hassoc : pre ++ P :: B :: post = (pre ++ [P]) ++ B :: post := by simp
  constructor
  · intro hpre h1 hh hp hne
    obtain ⟨m, hm, hst⟩ := run_ok_state cx trs _ hpre
    have hstep := blockStep_previousBlockMismatch cx m
      (heightBefore (pre ++ [P]), idBefore (pre ++ [P])) B p
      (by simpa [heightBefore_concat] using hh) h1 hp (by simpa [idBefore_concat] using hne)
    rw [hassoc, run_thrown_at cx trs _ post B m _ hm hst (by rw [hstep]), hstep]
    simp
  · intro h _
    rw [hassoc] at h hlen
    obtain ⟨m, -, -, hstep⟩ := run_ok_step cx trs _ post B h
    have hh := run_ok_height cx trs _ post B h hlen
    have hl := ((blockStep_ok_iff cx m _ _ B).1 hstep).2.1
    rw [idBefore_concat] at hl
    apply hl
    simp only [List.length_append, List.length_singleton] at hh
    omega

/-- The linkage check on three rows: the third block names 99 instead of the id of
the second. -/
theorem present_previous_block_mismatch_on_rows :
    run demoCodec [transfer1, multisig2] [genesis, block2, block3Relinked] =
      ((run demoCodec [transfer1, multisig2] [genesis, block2]).1,
        .thrown .previousBlockMismatch) :=
  (present_previous_block_mismatch demoCodec [transfer1, multisig2] [genesis] [] block2
    block3Relinked 99 (by decide)).1 (by decide) (by decide) (by decide) (by decide)
    (by decide)

/-- C1, on the code at a row it can receive: after the accepted block of height 1,
a block of height 2 whose `previousBlock` column is empty passes the height check
and differs from every stored id, yet the run does not throw "previous block
mismatch": main.cpp 237 dereferences the empty optional without the test that
main.cpp 247 makes, and what the run does from there on is not defined.  The
signature, the transaction count and the id of that block fit its header, so
nothing else can reject it. -/
theorem absent_previous_block_not_rejected :
    block2Orphan.dbHeight = (genesis.dbHeight + 1) % 2 ^ 64 ∧ block2Orphan.dbHeight ≠ 1 ∧
      block2Orphan.dbPreviousBlock = none ∧
      block2Orphan.dbPreviousBlock ≠ some genesis.dbId ∧
      (run demoCodec [transfer1] [genesis]).2 = .ok () ∧
      blockSignatureVerifies demoCodec block2Orphan ∧
      (rowsOfBlock [transfer1] block2Orphan.dbId).length =
        block2Orphan.dbNumberOfTransactions ∧
      demoCodec.blockHeaderId (headerOf block2Orphan) block2Orphan.dbSignature =
        block2Orphan.dbId ∧
      run demoCodec [transfer1] [genesis, block2Orphan] =
        ([.payloadHashMismatch], .undefined) ∧
      (run demoCodec [transfer1] [genesis, block2Orphan]).2 ≠
        .thrown .previousBlockMismatch := by
  decide

/-- C2. The height is checked first: when the rows `pre` were accepted and the
height of the next row `B` is not one more than the height of the last of them (0
when there is none), the run throws "Height mismatch" at `B`, whatever else `B`
holds, and nothing is written for `B`.  In a run that completes, the block that
follows `pre` has height `pre.length + 1`.  Heights are 64-bit and the sequence has
fewer than 2^64 rows. -/
theorem height_mismatch (cx : Codec) (trs : List TransactionRow)
    (pre post : List BlockRow) (B : BlockRow)
    (hlen : (pre ++ B :: post).length < 2 ^ 64) :
    ((run cx trs pre).2 = .ok () → B.dbHeight ≠ heightBefore pre + 1 →
        run cx trs (pre ++ B :: post) = ((run cx trs pre).1, .thrown .heightMismatch)) ∧
      ((run cx trs (pre ++ B :: post)).2 = .ok () → B.dbHeight = pre.length + 1) := by
  constructor
  · intro hpre hne
    obtain ⟨m, hm, hst⟩ := run_ok_state cx trs _ hpre
    have hb := run_ok_heightBefore cx trs pre hpre
      (by simp only [List.length_append, List.length_cons] at hlen; omega)
    have hstep := blockStep_heightMismatch cx m (heightBefore pre, idBefore pre) B (by
      simp only [List.length_append, List.length_cons] at hlen
      rw [Nat.mod_eq_of_lt (by simp only; omega)]
      exact hne)
    rw [run_thrown_at cx trs _ post B m _ hm hst (by rw [hstep]), hstep]
    simp
  · intro h
    exact run_ok_height cx trs pre post B h hlen

/-- C2, on two rows: a block of height 3 right after the block of height 1. -/
theorem height_mismatch_witness :
    run demoCodec [transfer1, multisig2] [genesis, block3] =
      ((run demoCodec [transfer1, multisig2] [genesis]).1, .thrown .heightMismatch) :=
  (height_mismatch demoCodec [transfer1, multisig2] [genesis] [] block3 (by decide)).1
    (by decide) (by decide)

/-- C3, as the code has it: a block of height 1 is not compared with any previous
block.  Whatever its `previousBlock` holds (nothing, 0 or another number), the run
over that block alone never throws "previous block mismatch" and completes exactly
when the transactions were accepted, its signature verifies over the header (which
carries `previousBlock`, 0 when absent), its transaction count matches and its
derived id is the stored one; with further rows, that error can only come after
the block was accepted. -/
theorem genesis_linkage_unchecked (cx : Codec) (trs : List TransactionRow) (B : BlockRow)
    (post : List BlockRow) (h1 : B.dbHeight = 1) :
    (run cx trs [B]).2 ≠ .thrown .previousBlockMismatch ∧
      ((run cx trs (B :: post)).2 = .thrown .previousBlockMismatch →
        (run cx trs [B]).2 = .ok ()) ∧
      ((run cx trs [B]).2 = .ok () ↔
        (run cx trs []).2 = .ok () ∧ blockSignatureVerifies cx B ∧
          (rowsOfBlock trs B.dbId).length = B.dbNumberOfTransactions ∧
          cx.blockHeaderId (headerOf B) B.dbSignature = B.dbId) := by
  have hfirst : (run cx trs [B]).2 ≠ .thrown .previousBlockMismatch := by
    intro h
    rcases ht : transactionLoop cx (fun _ => []) trs with ⟨out, (m | e | _)⟩
    · have hm : (transactionLoop cx (fun _ => []) trs).2 = .ok m := by rw [ht]
      rw [run_of_transactions_ok cx trs _ m hm] at h
      have hstep := blockStep_linked cx m (0, 0) B (by simp [h1]) (fun hne => absurd h1 hne)
      rcases hb : blockChecks cx m B with ⟨o, (u | e | _)⟩
      · simp [blockLoop, hstep, hb, Outcome.discard, -Prod.mk_zero_zero] at h
      · simp only [blockLoop, hstep, hb, Outcome.discard] at h
        have := blockChecks_thrown cx m B e (by rw [hb])
        have he : e = .previousBlockMismatch := by simpa using h
        subst he
        simp at this
      · simp [blockLoop, hstep, hb, Outcome.discard, -Prod.mk_zero_zero] at h
    · have := transactionLoop_thrown cx trs _ e (by rw [ht])
      subst this
      simp [run, ht] at h
    · simp [run, ht] at h
  refine ⟨hfirst, ?_, ?_⟩
  · intro h
    rcases run_cons_cases cx trs B post with hc | hc
    · rw [hc] at h
      exact absurd h hfirst
    · exact hc
  · constructor
    · intro h
      obtain ⟨m, hm, -, hstep⟩ := run_ok_step cx trs [] [] B h
      obtain ⟨-, -, hc, -⟩ := (blockStep_ok_iff cx m _ _ B).1 hstep
      obtain ⟨hs, hn, hid⟩ := (blockChecks_ok_iff cx m B).1 hc
      rw [transactionLoop_count cx trs m hm] at hn
      exact ⟨(run_ok_iff cx trs []).2 ⟨m, hm, (0, 0), by simp [blockLoop]⟩, hs, hn, hid⟩
    · rintro ⟨h0, hs, hn, hid⟩
      obtain ⟨m, hm, hst⟩ := run_ok_state cx trs _ h0
      rw [← transactionLoop_count cx trs m hm] at hn
      have hstep : (blockStep cx m (heightBefore [], idBefore []) B).2 =
          .ok (B.dbHeight, B.dbId) :=
        (blockStep_ok_iff cx m _ _ B).2
          ⟨by simp [heightBefore, h1], fun hne => absurd h1 hne,
            (blockChecks_ok_iff cx m B).2 ⟨hs, hn, hid⟩, rfl⟩
      have := run_ok_at cx trs [] B m _ hm hst hstep
      simp only [List.nil_append] at this
      rw [this]

/-- C3, on one row: a block of height 1 naming 5 as its previous block. -/
theorem genesis_linkage_unchecked_witness :
    (run demoCodec [] [genesisWithPrevious]).2 ≠ .thrown .previousBlockMismatch :=
  (genesis_linkage_unchecked demoCodec [] genesisWithPrevious [] (by decide)).1

/-- C3 as stated fails: a block of height 1 whose `previousBlock` is present and is
not 0 is accepted, and `main` returns 0. -/
theorem genesis_nonzero_previous_accepted :
    genesisWithPrevious.dbHeight = 1 ∧ genesisWithPrevious.dbPreviousBlock = some 5 ∧
      run demoCodec [] [genesisWithPrevious] = ([], .ok ()) ∧
      main demoCodec [] [genesisWithPrevious] = some 0 := by
  decide

/-- C4. The derived id must be the stored id: when the rows `pre` were accepted and
the next row `B` is past the height, linkage, signature and transaction-count
checks, a derived id `bh.id(signature)` other than the stored id makes the run
throw "id mismatch" at `B`.  No table is consulted, so in a run that completes
every block has a derived id equal to its stored id. -/
theorem id_mismatch (cx : Codec) (trs : List TransactionRow) (pre post : List BlockRow)
    (B : BlockRow) :
    ((run cx trs pre).2 = .ok () → B.dbHeight = (heightBefore pre + 1) % 2 ^ 64 →
        (B.dbHeight ≠ 1 → B.dbPreviousBlock = some (idBefore pre)) →
        blockSignatureVerifies cx B →
        (rowsOfBlock trs B.dbId).length = B.dbNumberOfTransactions →
        cx.blockHeaderId (headerOf B) B.dbSignature ≠ B.dbId →
        (run cx trs (pre ++ B :: post)).2 = .thrown .idMismatch) ∧
      ((run cx trs (pre ++ B :: post)).2 = .ok () →
        cx.blockHeaderId (headerOf B) B.dbSignature = B.dbId) := by
  constructor
  · intro hpre hh hl hs hn hid
    obtain ⟨m, hm, -⟩ := run_ok_state cx trs _ hpre
    rw [← transactionLoop_count cx trs m hm] at hn
    have hc := blockChecks_after_count cx m B hs hn
    rw [run_thrown_of_checks cx trs pre post B m .idMismatch hm hpre hh hl (by
      rw [hc]; simp [hid])]
  · intro h
    obtain ⟨m, -, -, hstep⟩ := run_ok_step cx trs pre post B h
    exact ((blockChecks_ok_iff cx m B).1 ((blockStep_ok_iff cx m _ _ B).1 hstep).2.2.1).2.2

/-- C4, on three rows: the third block is stored under the id 7. -/
theorem id_mismatch_witness :
    (run demoCodec [transfer1, multisig2] [genesis, block2, block3Renamed]).2 =
      .thrown .idMismatch :=
  (id_mismatch demoCodec [transfer1, multisig2] [genesis, block2] [] block3Renamed).1
    (by decide) (by decide) (by decide) (by decide) (by decide) (by decide)

/-- C5. The transaction count must be the declared one: when the rows `pre` were
accepted and the next row `B` is past the height, linkage and signature checks, a
number of transaction rows grouped under the id of `B` other than
`numberOfTransactions` makes the run throw "transaction number mismatch" at `B`,
with nothing written for `B`.  No table is consulted, so in a run that completes
every block declares the number of its rows, and 0 when it has none. -/
theorem transaction_number_mismatch (cx : Codec) (trs : List TransactionRow)
    (pre post : List BlockRow) (B : BlockRow) :
    ((run cx trs pre).2 = .ok () → B.dbHeight = (heightBefore pre + 1) % 2 ^ 64 →
        (B.dbHeight ≠ 1 → B.dbPreviousBlock = some (idBefore pre)) →
        blockSignatureVerifies cx B →
        (rowsOfBlock trs B.dbId).length ≠ B.dbNumberOfTransactions →
        run cx trs (pre ++ B :: post) =
          ((run cx trs pre).1, .thrown .transactionNumberMismatch)) ∧
      ((run cx trs (pre ++ B :: post)).2 = .ok () →
        (rowsOfBlock trs B.dbId).length = B.dbNumberOfTransactions ∧
          (rowsOfBlock trs B.dbId = [] → B.dbNumberOfTransactions = 0)) := by
  constructor
  · intro hpre hh hl hs hn
    obtain ⟨m, hm, -⟩ := run_ok_state cx trs _ hpre
    rw [← transactionLoop_count cx trs m hm] at hn
    have hc := blockChecks_transactionNumberMismatch cx m B hs hn
    rw [run_thrown_of_checks cx trs pre post B m .transactionNumberMismatch hm hpre hh hl
      (by rw [hc]), hc]
    simp
  · intro h
    obtain ⟨m, hm, -, hstep⟩ := run_ok_step cx trs pre post B h
    have hn := ((blockChecks_ok_iff cx m B).1 ((blockStep_ok_iff cx m _ _ B).1 hstep).2.2.1).2.1
    rw [transactionLoop_count cx trs m hm] at hn
    refine ⟨hn, fun he => ?_⟩
    rw [he] at hn
    exact hn.symm

/-- C5, on one row: a block declaring one transaction while no row names it. -/
theorem transaction_number_mismatch_witness :
    run demoCodec [multisig2] [genesis] =
      ([.transactionNotVerified 42], .thrown .transactionNumberMismatch) :=
  (transaction_number_mismatch demoCodec [multisig2] [] [] genesis).1
    (by decide) (by decide) (by decide) (by decide) (by decide)

/-- C8. A payload hash that differs from the declared one only writes a warning:
when the rows `pre` were accepted and the next row `B` is past the height, linkage,
signature and transaction-count checks while its `payloadHash` is not the hash of
its grouped transactions, the run over `pre ++ [B]` writes "payload hash mismatch"
and ends as the id check of `B` decides.  The outcome of any run is the same
whatever `Payload::hash` returns, hence also for the ids of `payloadHashMismatch`. -/
theorem payload_hash_mismatch_not_fatal (cx : Codec) (trs : List TransactionRow)
    (pre : List BlockRow) (B : BlockRow) :
    ((run cx trs pre).2 = .ok () → B.dbHeight = (heightBefore pre + 1) % 2 ^ 64 →
        (B.dbHeight ≠ 1 → B.dbPreviousBlock = some (idBefore pre)) →
        blockSignatureVerifies cx B →
        (rowsOfBlock trs B.dbId).length = B.dbNumberOfTransactions →
        B.dbPayloadHash ≠ cx.payloadHash ((rowsOfBlock trs B.dbId).filterMap entryOf) →
        run cx trs (pre ++ [B]) =
          ((run cx trs pre).1 ++ [.payloadHashMismatch],
            if cx.blockHeaderId (headerOf B) B.dbSignature ≠ B.dbId then
              .thrown .idMismatch
            else .ok ())) ∧
      (∀ (f : List (Transaction × Bytes) → Bytes) (blocks : List BlockRow),
        (run { cx with payloadHash := f } trs blocks).2 = (run cx trs blocks).2) := by
  refine ⟨?_, fun f blocks => run_payloadHash cx f trs blocks⟩
  intro hpre hh hl hs hn hp
  obtain ⟨m, hm, hst⟩ := run_ok_state cx trs _ hpre
  rw [← transactionLoop_count cx trs m hm] at hn
  have hmap := transactionLoop_map cx trs _ m hm B.dbId
  simp only [List.nil_append] at hmap
  rw [← hmap] at hp
  have hc := blockChecks_after_count cx m B hs hn
  rw [if_pos hp] at hc
  by_cases hid : cx.blockHeaderId (headerOf B) B.dbSignature = B.dbId
  · have hstep : (blockStep cx m (heightBefore pre, idBefore pre) B).2 =
        .ok (B.dbHeight, B.dbId) :=
      (blockStep_ok_iff cx m _ _ B).2 ⟨hh, hl, by rw [hc]; simp [hid], rfl⟩
    rw [run_ok_at cx trs pre B m _ hm hst hstep, blockStep_linked cx m _ B hh hl, hc]
    simp [hid]
  · rw [run_thrown_of_checks cx trs pre [] B m .idMismatch hm hpre hh hl (by
      rw [hc]; simp [hid]), hc]
    simp [hid]

/-- C8, on one row: the first block declares an empty payload hash while it has one
transaction. -/
theorem payload_hash_mismatch_not_fatal_witness :
    run demoCodec [transfer1, multisig2] [genesis] =
      ([.transactionNotVerified 42, .payloadHashMismatch], .ok ()) :=
  (payload_hash_mismatch_not_fatal demoCodec [transfer1, multisig2] [] genesis).1
    (by decide) (by decide) (by decide) (by decide) (by decide) (by decide)

/-- C6, as the code has it: `main` never consults the exception tables, so a
transaction whose id is listed in `invalidTransactionSignature` of a network is
handled like any other.  After accepted rows `pre` it makes the run throw "Invalid
signature" when its type is 0, or 2 with a non-zero timestamp, and its signature
does not verify; it passes when its signature verifies or its type is another. -/
theorem listed_transaction_not_exempted (network : Network) (cx : Codec)
    (pre post : List TransactionRow) (row : TransactionRow) (blocks : List BlockRow)
    (_ : row.dbId ∈ (Settings.Settings network).exceptions.invalidTransactionSignature)
    (hrec : recipientIdOf row.dbRecipientIdString ≠ none)
    (hpre : (run cx pre []).2 = .ok ()) :
    ((row.dbType = 0 ∨ (row.dbType = 2 ∧ row.dbTimestamp ≠ 0)) →
        ¬ transactionSignatureVerifies cx row →
        run cx (pre ++ row :: post) blocks = ((run cx pre []).1, .thrown .invalidSignature)) ∧
      (transactionSignatureVerifies cx row ∨
          ¬ (row.dbType = 0 ∨ (row.dbType = 2 ∧ row.dbTimestamp ≠ 0)) →
        (run cx (pre ++ [row]) []).2 = .ok ()) := by
  obtain ⟨m, hm⟩ := run_no_blocks_ok cx pre hpre
  obtain ⟨t, ht⟩ : ∃ t, transactionOf row = some t := by
    unfold transactionOf
    rcases hr : recipientIdOf row.dbRecipientIdString with _ | r
    · exact absurd hr hrec
    · exact ⟨_, rfl⟩
  constructor
  · intro hv hs
    rw [transactionSignatureVerifies_iff cx row t ht] at hs
    have hstep := transactionStep_invalidSignature cx m row t ht hv hs
    rw [run_transaction_thrown cx pre post row blocks m .invalidSignature hm (by rw [hstep]),
      hstep]
    simp
  · intro h
    have hstep : (transactionStep cx m row).2 =
        .ok (push_back m row.dbBockId (t, row.dbSignature)) := by
      refine (transactionStep_ok_iff cx m _ row).2 ⟨t, ht, fun hv => ?_, rfl⟩
      rcases h with hs | hn
      · exact (transactionSignatureVerifies_iff cx row t ht).1 hs
      · exact absurd hv hn
    rw [run_transaction_ok cx pre row m _ hm hstep]

/-- C6 as amended, on one row: the transfer listed first for Mainnet, with a
signature that does not verify. -/
theorem listed_transaction_not_exempted_witness :
    run demoCodec [transfer1Forged] [] = ([], .thrown .invalidSignature) :=
  (listed_transaction_not_exempted .Mainnet demoCodec [] [] transfer1Forged []
    (by decide) (by decide) (by decide)).1 (by decide) (by decide)

/-- C6 as stated fails: a transfer whose id is listed in Mainnet's
`invalidTransactionSignature` and whose signature does not verify makes the run
throw "Invalid signature", and `main` returns 1. -/
theorem listed_transaction_rejected :
    transfer1Forged.dbId ∈
        (Settings.Settings .Mainnet).exceptions.invalidTransactionSignature ∧
      ¬ transactionSignatureVerifies demoCodec transfer1Forged ∧
      run demoCodec [transfer1Forged] [] = ([], .thrown .invalidSignature) ∧
      main demoCodec [transfer1Forged] [] = some 1 := by
  decide

/-- C7. Which transactions are verified: a row whose recipient was read throws in
the transaction loop only with "Invalid signature", and does so exactly when its
type is 0, or 2 with a non-zero timestamp, and its signature does not verify over
its hash with its sender public key; after accepted rows `pre` the run then ends
with that error.  A row of any other type (also type 2 with timestamp 0) is
written out as not verified, is pushed into the map and lets the loop go on,
whatever its signature. -/
theorem transaction_signature_checked (cx : Codec) (m : BlockToTransactions)
    (row : TransactionRow) (t : Transaction) (ht : transactionOf row = some t) :
    ((transactionStep cx m row).2 = .thrown .invalidSignature ↔
        (row.dbType = 0 ∨ (row.dbType = 2 ∧ row.dbTimestamp ≠ 0)) ∧
          ¬ transactionSignatureVerifies cx row) ∧
      (∀ e, (transactionStep cx m row).2 = .thrown e → e = .invalidSignature) ∧
      (¬ (row.dbType = 0 ∨ (row.dbType = 2 ∧ row.dbTimestamp ≠ 0)) →
        transactionStep cx m row =
          ([.transactionNotVerified row.dbId],
            .ok (push_back m row.dbBockId (t, row.dbSignature)))) ∧
      (∀ (pre post : List TransactionRow) (blocks : List BlockRow),
        (run cx pre []).2 = .ok () →
        (row.dbType = 0 ∨ (row.dbType = 2 ∧ row.dbTimestamp ≠ 0)) →
        ¬ transactionSignatureVerifies cx row →
        run cx (pre ++ row :: post) blocks =
          ((run cx pre []).1, .thrown .invalidSignature)) := by
  have hiff := transactionSignatureVerifies_iff cx row t ht
  refine ⟨?_, ?_, ?_, ?_⟩
  · constructor
    · intro h
      by_cases hv : row.dbType = 0 ∨ (row.dbType = 2 ∧ row.dbTimestamp ≠ 0)
      · refine ⟨hv, fun hs => ?_⟩
        have hok := (transactionStep_ok_iff cx m _ row).2
          ⟨t, ht, fun _ => hiff.1 hs, rfl⟩
        rw [hok] at h
        cases h
      · rw [transactionStep_notVerified cx m row t ht hv] at h
        cases h
    · rintro ⟨hv, hs⟩
      rw [transactionStep_invalidSignature cx m row t ht hv (fun h => hs (hiff.2 h))]
  · intro e he
    have := transactionLoop_thrown cx [row] m e (by
      rw [transactionLoop_cons_thrown cx m row [] e he])
    exact this
  · intro hv
    exact transactionStep_notVerified cx m row t ht hv
  · intro pre post blocks hpre hv hs
    obtain ⟨m', hm'⟩ := run_no_blocks_ok cx pre hpre
    have hstep := transactionStep_invalidSignature cx m' row t ht hv
      (fun h => hs (hiff.2 h))
    rw [run_transaction_thrown cx pre post row blocks m' .invalidSignature hm'
      (by rw [hstep]), hstep]
    simp

/-- C7, on one row: a multisignature registration with a signature that does not
verify is written out as not verified and accepted. -/
theorem transaction_signature_checked_witness :
    transactionStep demoCodec (fun _ => []) multisig2 =
      ([.transactionNotVerified 42],
        .ok (push_back (fun _ => []) 5925748444299399143
          ({ type := 1, timestamp := 6, senderPublicKey := [9], recipientId := 0,
             amount := 0, assetData := [43, 97] }, [1]))) :=
  (transaction_signature_checked demoCodec (fun _ => []) multisig2
    { type := 1, timestamp := 6, senderPublicKey := [9], recipientId := 0,
      amount := 0, assetData := [43, 97] } (by decide)).2.2.1 (by decide)

/-- C9, as the code has it: the identifier handed to the `Transaction` constructor
is 0 when the column is absent, and it is `n` when the column holds decimal digits
that write `n < 2^64` followed by one more character (the suffix of an address,
which `substr(0, size() - 1)` removes before the digits are read). -/
theorem recipient_of_digits_and_suffix (ds : Bytes) (c : Byte) (n : Nat)
    (hd : denotes ds n) (hn : n < 2 ^ 64) :
    recipientIdOf none = some 0 ∧ recipientIdOf (some (ds ++ [c])) = some n := by
  obtain ⟨hne, hdig, hval⟩ := hd
  refine ⟨rfl, ?_⟩
  rw [← digitsValue_eq_ofDigits] at hval
  subst hval
  unfold recipientIdOf
  simp only [List.length_append, List.length_singleton, Nat.add_sub_cancel,
    List.take_left']
  exact extractUInt64_digits ds hne hdig hn

/-- C9 as amended, on the text "123L". -/
theorem recipient_of_digits_and_suffix_witness :
    recipientIdOf (some [49, 50, 51, 76]) = some 123 :=
  (recipient_of_digits_and_suffix [49, 50, 51] 76 123
    ⟨by decide, by set_option maxRecDepth 4000 in decide, by rfl⟩ (by decide)).2

/-- C9 as stated fails: the column "123" is a string of decimal digits that writes
123, and the identifier handed over is 12. -/
theorem recipient_of_bare_digits :
    denotes [49, 50, 51] 123 ∧ 123 < 2 ^ 64 ∧
      recipientIdOf (some [49, 50, 51]) = some 12 ∧
      recipientIdOf (some [49, 50, 51]) ≠ some 123 :=
  ⟨⟨by decide, by set_option maxRecDepth 4000 in decide, by rfl⟩, by decide, by decide,
    by decide⟩

/-- When `main` returns 0, where every step is defined: for rows whose recipient is
read, blocks of height other than 1 whose `previousBlock` is present, and fewer
than 2^64 block rows, `main` returns 0 exactly when (a) every transaction of type 0, or
of type 2 with a non-zero timestamp, has a signature that verifies over its hash
with its sender public key, and (b) every block, in the order supplied, has a
height one more than its predecessor (1 for the first), names the stored id of its
predecessor when its height is not 1, has a signature that verifies over the
header hash with its generator public key, declares the number of transaction rows
grouped under its id, and has a derived id equal to its stored id. -/
theorem main_returns_zero_iff_of_present (cx : Codec) (trs : List TransactionRow)
    (blocks : List BlockRow)
    (hrec : ∀ row ∈ trs, recipientIdOf row.dbRecipientIdString ≠ none)
    (_ : ∀ B ∈ blocks, B.dbHeight ≠ 1 → B.dbPreviousBlock ≠ none)
    (hlen : blocks.length < 2 ^ 64) :
    main cx trs blocks = some 0 ↔
      (∀ row ∈ trs, (row.dbType = 0 ∨ (row.dbType = 2 ∧ row.dbTimestamp ≠ 0)) →
        transactionSignatureVerifies cx row) ∧
      (∀ pre B post, blocks = pre ++ B :: post →
        B.dbHeight = heightBefore pre + 1 ∧
          (B.dbHeight ≠ 1 → B.dbPreviousBlock = some (idBefore pre)) ∧
          blockSignatureVerifies cx B ∧
          (rowsOfBlock trs B.dbId).length = B.dbNumberOfTransactions ∧
          cx.blockHeaderId (headerOf B) B.dbSignature = B.dbId) := by
  rw [main_eq_zero_iff]
  constructor
  · intro h
    obtain ⟨m, hm, -⟩ := (run_ok_iff cx trs blocks).1 h
    constructor
    · intro row hrow hv
      obtain ⟨t, ht, hs⟩ := transactionLoop_rows_ok cx trs _ m hm row hrow
      exact (transactionSignatureVerifies_iff cx row t ht).2 (hs hv)
    · intro pre B post hsplit
      subst hsplit
      obtain ⟨m', hm', -, hstep⟩ := run_ok_step cx trs pre post B h
      obtain ⟨-, hl, hc, -⟩ := (blockStep_ok_iff cx m' _ _ B).1 hstep
      obtain ⟨hs, hn, hid⟩ := (blockChecks_ok_iff cx m' B).1 hc
      rw [transactionLoop_count cx trs m' hm'] at hn
      have hh := run_ok_height cx trs pre post B h hlen
      have hb := run_ok_heightBefore cx trs pre (run_ok_of_append cx trs pre _ h) (by
        simp only [List.length_append, List.length_cons] at hlen; omega)
      exact ⟨by rw [hh, hb], hl, hs, hn, hid⟩
  · rintro ⟨ha, hb⟩
    obtain ⟨m, hm⟩ := transactionLoop_ok_of_rows cx trs (fun _ => []) (by
      intro row hrow
      obtain ⟨t, ht⟩ : ∃ t, transactionOf row = some t := by
        unfold transactionOf
        rcases hr : recipientIdOf row.dbRecipientIdString with _ | r
        · exact absurd hr (hrec row hrow)
        · exact ⟨_, rfl⟩
      exact ⟨t, ht, fun hv => (transactionSignatureVerifies_iff cx row t ht).1 (ha row hrow hv)⟩)
    refine (run_ok_iff cx trs blocks).2 ⟨m, hm, (heightBefore blocks, idBefore blocks), ?_⟩
    refine blockLoop_ok_of_chain cx m blocks hlen ?_ blocks [] (by simp)
    intro pre B post hsplit
    obtain ⟨hh, hl, hs, hn, hid⟩ := hb pre B post hsplit
    rw [← transactionLoop_count cx trs m hm] at hn
    exact ⟨hh, hl, (blockChecks_ok_iff cx m B).2 ⟨hs, hn, hid⟩⟩

/-- A chain of three blocks of heights 1, 2 and 3 with signatures that verify and
the right linkage: `main` returns 0. -/
theorem main_returns_zero_on_chain :
    main demoCodec [transfer1, multisig2] [genesis, block2, block3] = some 0 ∧
      (∀ pre B post, [genesis, block2, block3] = pre ++ B :: post →
        B.dbHeight = heightBefore pre + 1 ∧
          (B.dbHeight ≠ 1 → B.dbPreviousBlock = some (idBefore pre)) ∧
          blockSignatureVerifies demoCodec B ∧
          (rowsOfBlock [transfer1, multisig2] B.dbId).length = B.dbNumberOfTransactions ∧
          demoCodec.blockHeaderId (headerOf B) B.dbSignature = B.dbId) :=
  ⟨by decide,
    ((main_returns_zero_iff_of_present demoCodec [transfer1, multisig2]
      [genesis, block2, block3] (by decide) (by decide) (by decide)).1 (by decide)).2⟩

/-- C10, on the code at rows it can receive: on the chain of the block of height 1
and a block of height 2 whose `previousBlock` column is empty, the block of height 2
does not name the id of its predecessor, so condition (b) fails, while every other
condition of (a) and (b) holds; yet `main` is not made to return 1: the empty
optional is dereferenced at main.cpp 237 and the exit status is not defined. -/
theorem main_undefined_on_absent_previous_block :
    (∀ row ∈ [transfer1], transactionSignatureVerifies demoCodec row) ∧
      (∀ B ∈ [genesis, block2Orphan],
        blockSignatureVerifies demoCodec B ∧
          (rowsOfBlock [transfer1] B.dbId).length = B.dbNumberOfTransactions ∧
          demoCodec.blockHeaderId (headerOf B) B.dbSignature = B.dbId) ∧
      genesis.dbHeight = 1 ∧ block2Orphan.dbHeight = genesis.dbHeight + 1 ∧
      block2Orphan.dbPreviousBlock ≠ some genesis.dbId ∧
      main demoCodec [transfer1] [genesis, block2Orphan] = none ∧
      main demoCodec [transfer1] [genesis, block2Orphan] ≠ some 1 := by
  decide

/-- C11. The map built by the transaction loop: when the loop ends without
failure, `blockToTransactions[b]` holds, for every block id `b` and in the order
the rows were read, one pair for each row whose `blockId` is `b`, made of the
transaction built from that row and of that row's own signature.  Every row of
the input has its pair in the list of its own block id, the lists of any keys that
are distinct and cover the block ids hold as many pairs together as there are rows,
and a key that no row names holds nothing: each row is in exactly one list.  The
payload examined for a block row is the list under its `dbId`: its length is what
is compared with `numberOfTransactions` and its hash with `payloadHash`. -/
theorem blockToTransactions_grouped (cx : Codec) (trs : List TransactionRow)
    (m : BlockToTransactions) (h : (transactionLoop cx (fun _ => []) trs).2 = .ok m) :
    (∀ b, (m b).map (fun p => (some p.1, p.2)) =
        (rowsOfBlock trs b).map (fun row => (transactionOf row, row.dbSignature))) ∧
      (∀ row ∈ trs, ∃ t, transactionOf row = some t ∧
        (t, row.dbSignature) ∈ m row.dbBockId) ∧
      (∀ keys : List Nat, keys.Nodup → (∀ row ∈ trs, row.dbBockId ∈ keys) →
        (keys.map (fun b => (m b).length)).sum = trs.length) ∧
      (∀ b, (∀ row ∈ trs, row.dbBockId ≠ b) → m b = []) ∧
      (∀ B : BlockRow, blockChecks cx m B =
        if ¬ blockSignatureVerifies cx B then ([], .thrown .invalidSignature)
        else if (m B.dbId).length ≠ B.dbNumberOfTransactions then
          ([], .thrown .transactionNumberMismatch)
        else
          (if B.dbPayloadHash ≠ cx.payloadHash (m B.dbId) then [.payloadHashMismatch]
            else [],
           if cx.blockHeaderId (headerOf B) B.dbSignature ≠ B.dbId then
            .thrown .idMismatch else .ok ())) := by
  have hmap := transactionLoop_map cx trs _ m h
  have hrows := transactionLoop_rows_ok cx trs _ m h
  have hcount := transactionLoop_count cx trs m h
  refine ⟨fun b => ?_, fun row hrow => ?_, fun keys hnd hall => ?_, fun b hb => ?_,
    fun B => ?_⟩
  · rw [hmap b, List.nil_append, filterMap_entryOf_pairs]
    congr 1
    apply List.filter_eq_self.2
    intro row hrow
    obtain ⟨t, ht, -⟩ := hrows row (List.mem_of_mem_filter hrow)
    simp [ht]
  · obtain ⟨t, ht, -⟩ := hrows row hrow
    refine ⟨t, ht, ?_⟩
    rw [hmap row.dbBockId, List.nil_append]
    apply List.mem_filterMap.2
    exact ⟨row, List.mem_filter.2 ⟨hrow, by simp⟩, by simp [entryOf, ht]⟩
  · have hlen : ∀ b, (m b).length = (rowsOfBlock trs b).length := hcount
    simp only [hlen]
    exact sum_rowsOfBlock_length trs keys hnd hall
  · rw [hmap b, List.nil_append]
    have : rowsOfBlock trs b = [] := by
      apply List.filter_eq_nil_iff.2
      intro row hrow
      simpa using hb row hrow
    rw [this]
    rfl
  · by_cases hs : blockSignatureVerifies cx B
    · by_cases hn : transactionCount (m B.dbId) = B.dbNumberOfTransactions
      · rw [blockChecks_after_count cx m B hs hn]
        have hn' : (m B.dbId).length = B.dbNumberOfTransactions := hn
        simp [hs, hn']
      · rw [blockChecks_transactionNumberMismatch cx m B hs hn]
        have hn' : ¬ (m B.dbId).length = B.dbNumberOfTransactions := hn
        simp [hs, hn']
    · rw [blockChecks_invalidSignature cx m B hs]
      simp [hs]

/-- C11, on two rows of two blocks: the list under the id of the first block is
the one pair of the transfer. -/
theorem blockToTransactions_grouped_witness :
    (push_back (push_back (fun _ => []) 15732997307154049159
        ({ type := 0, timestamp := 5, senderPublicKey := [9], recipientId := 123,
           amount := 50, assetData := [] }, [0, 5, 123, 50, 9, 9]))
      5925748444299399143
        ({ type := 1, timestamp := 6, senderPublicKey := [9], recipientId := 0,
           amount := 0, assetData := [43, 97] }, [1])
      15732997307154049159).map (fun p => (some p.1, p.2)) =
      (rowsOfBlock [transfer1, multisig2] 15732997307154049159).map
        (fun row => (transactionOf row, row.dbSignature)) :=
  (blockToTransactions_grouped demoCodec [transfer1, multisig2] _ (by rfl)).1
    15732997307154049159

/-- C12. The addresses of `exceptions.invalidAddresses`: for each of the three
networks, every address of the table ends in `L`, and the characters before the `L`
are decimal digits that either begin with a `0` followed by at least one more
digit, or write a number greater than 2^64 - 1. -/
theorem invalidAddresses_unrepresentable (network : Network) (address : String)
    (h : address ∈ (Settings.Settings network).exceptions.invalidAddresses) :
    unrepresentable (charsOf address) :=
  unrepresentable_of_check _ (List.all_eq_true.1 (invalidAddresses_checked network) address h)

/-- C12, on the second address of Testnet, "000123L". -/
theorem invalidAddresses_unrepresentable_witness : unrepresentable (charsOf "000123L") :=
  invalidAddresses_unrepresentable .Testnet "000123L" (by decide)

end SnapshotValidator
